import Mathlib

/-!
# Verification of the lox-tree-rust front end and evaluator

A shallow embedding of the repository's scanner (`src/scanner.rs`), parser
(`src/parser.rs`), environment (`src/environment.rs`) and tree-walking
interpreter (`src/interpreter.rs`), together with theorems settling the
frozen claims about them.

Modelling conventions:
* `f64` is modelled by `Rat` (exact arithmetic).  No claim proved here
  depends on floating-point rounding, overflow, infinities or NaN; the
  numeric payloads exercised are small integers produced by the scanner.
* Rust's `char::is_numeric` / `is_alphabetic` / `is_alphanumeric` are
  Unicode predicates; they are modelled by Lean's ASCII `Char.isDigit` /
  `Char.isAlpha` / `Char.isAlphanum`.  The two agree on every ASCII
  character, and every universally quantified theorem below constrains the
  relevant characters through these predicates (which only ASCII characters
  satisfy), so each theorem transfers to the Rust code unchanged.
* Loops (`while` in Rust) are modelled with an explicit fuel argument so
  that every definition is a structurally recursive, kernel-reducible
  function.  Fuel exhaustion is a distinguished outcome, never confused
  with an error or a panic; callers pass fuel that provably suffices.
* Rust `match` statements over characters and strings are written as the
  equivalent chain of equality tests.
-/

namespace LoxTree

/-- Runtime value / literal payload: `Object` in `src/tokens.rs`
(`String`, `Number(f64)`, `Nil`, `Boolean`). -/
inductive Obj where
  | string (s : String)
  | number (n : Rat)
  | nil
  | boolean (b : Bool)
deriving DecidableEq, Repr

/-- `TokenType` in `src/tokens.rs`.  Keywords are prefixed with `kw`
because their Rust names are Lean keywords. -/
inductive TokenType where
  | leftParen | rightParen | leftBrace | rightBrace
  | comma | dot | minus | plus | semicolon | slash | star
  | bang | bangEqual | equal | equalEqual
  | greater | greaterEqual | less | lessEqual
  | identifier | stringLit | number
  | kwAnd | kwClass | kwElse | kwFalse | kwFun | kwFor | kwIf | kwNil | kwOr
  | kwPrint | kwReturn | kwSuper | kwThis | kwTrue | kwVar | kwWhile
  | eof
deriving DecidableEq, Repr

/-- `Token` in `src/tokens.rs`. -/
structure Token where
  tokenType : TokenType
  lexeme : String
  literal : Option Obj
  line : Nat
deriving DecidableEq, Repr

/-- Rust `char::is_numeric`, on the ASCII fragment (see file header). -/
def rustIsNumeric (c : Char) : Bool := c.isDigit

/-- Rust `char::is_alphabetic`, on the ASCII fragment (see file header).
Note that `'_'.is_alphabetic()` is `false` in Rust, as here. -/
def rustIsAlphabetic (c : Char) : Bool := c.isAlpha

/-- Rust `char::is_alphanumeric`, on the ASCII fragment (see file header). -/
def rustIsAlphanumeric (c : Char) : Bool := c.isAlphanum

/-- Scanner state: `Scanner` in `src/scanner.rs`.  The `source` string is a
list of characters (the Rust code addresses it through `chars().nth`);
`errors` records the `(line, message)` pairs passed to
`error_reporter.error`, in order of emission. -/
structure ScanState where
  source : List Char
  tokens : List Token
  errors : List (Nat × String)
  start : Nat
  current : Nat
  line : Nat
deriving DecidableEq, Repr

namespace Scanner

/-- `char_at`: the Rust code indexes with `chars().nth(index).expect(..)`
and only calls it in bounds; out of bounds we return `'\x00'` to stay
total. -/
def charAt (st : ScanState) (i : Nat) : Char := st.source.getD i '\x00'

/-- `is_at_end`. -/
def isAtEnd (st : ScanState) : Bool := st.source.length ≤ st.current

/-- `peek`. -/
def peek (st : ScanState) : Char :=
  if isAtEnd st then '\x00' else charAt st st.current

/-- `peek_next`. -/
def peekNext (st : ScanState) : Char :=
  if st.source.length ≤ st.current + 1 then '\x00' else charAt st (st.current + 1)

/-- `advance`: returns the consumed character and the advanced state. -/
def advance (st : ScanState) : Char × ScanState :=
  (charAt st st.current, { st with current := st.current + 1 })

/-- The characters of `source[start..current]`. -/
def lexemeChars (st : ScanState) : List Char :=
  (st.source.drop st.start).take (st.current - st.start)

/-- `add_literal_token`. -/
def addLiteralToken (st : ScanState) (tt : TokenType) (lit : Option Obj) : ScanState :=
  { st with tokens := st.tokens ++ [⟨tt, String.mk (lexemeChars st), lit, st.line⟩] }

/-- `add_token`. -/
def addToken (st : ScanState) (tt : TokenType) : ScanState :=
  addLiteralToken st tt none

/-- `error_reporter.error(line, message)`: the reporter prints the
diagnostic and raises `had_error`; we record the stream of diagnostics. -/
def reportError (st : ScanState) (line : Nat) (msg : String) : ScanState :=
  { st with errors := st.errors ++ [(line, msg)] }

/-- `match_token`. -/
def matchToken (st : ScanState) (expected : Char) : Bool × ScanState :=
  if isAtEnd st ∨ ¬ peek st = expected then (false, st)
  else (true, { st with current := st.current + 1 })

/-- A `while p(self.peek()) { self.advance(); }` loop.  The in-bounds test
is part of the guard: when at end `peek` is `'\x00'`, and every predicate
`p` the scanner loops on rejects `'\x00'`, so the guard is equivalent to
Rust's; for the comment loop Rust writes the `!is_at_end` conjunct
explicitly.  Fuel bounds the iteration count; callers pass the source
length, which always suffices since `current` grows each step. -/
def advanceWhile : Nat → (Char → Bool) → ScanState → ScanState
  | 0, _, st => st
  | fuel + 1, p, st =>
    if st.current < st.source.length ∧ p (peek st) then
      advanceWhile fuel p (advance st).2
    else st

/-- `number` (src/scanner.rs:39-56): consume digits, optionally one `.`
followed by at least one digit, then emit a `Number` token whose payload is
the parsed value. -/
def digitsVal (ds : List Char) : Nat :=
  ds.foldl (fun a c => a * 10 + (c.toNat - 48)) 0

/-- `str::parse::<f64>` on the digit strings (`digits` or
`digits.digits`) the scanner produces, modelled exactly by a rational. -/
def parseF64 (cs : List Char) : Rat :=
  let intPart := cs.takeWhile (fun c => ¬ c = '.')
  let fracPart := (cs.dropWhile (fun c => ¬ c = '.')).drop 1
  (digitsVal intPart : Rat) + (digitsVal fracPart : Rat) / (10 : Rat) ^ fracPart.length

def numberTok (st : ScanState) : ScanState :=
  let st1 := advanceWhile st.source.length rustIsNumeric st
  let st2 :=
    if peek st1 = '.' ∧ rustIsNumeric (peekNext st1) then
      advanceWhile st1.source.length rustIsNumeric (advance st1).2
    else st1
  addLiteralToken st2 .number (some (.number (parseF64 (lexemeChars st2))))

/-- The body loop of `string` (src/scanner.rs:59-64):
`while peek != '"' && !is_at_end { if peek == '\n' { line += 1 }; advance }`. -/
def stringLoop : Nat → ScanState → ScanState
  | 0, st => st
  | fuel + 1, st =>
    if ¬ peek st = '"' ∧ st.current < st.source.length then
      let st' := if peek st = '\n' then { st with line := st.line + 1 } else st
      stringLoop fuel (advance st').2
    else st

/-- `string` (src/scanner.rs:58-74). -/
def stringTok (st : ScanState) : ScanState :=
  let st1 := stringLoop st.source.length st
  if isAtEnd st1 then reportError st1 st1.line "Unterminated string."
  else
    let st2 := (advance st1).2
    let value := String.mk ((st2.source.drop (st2.start + 1)).take (st2.current - 1 - (st2.start + 1)))
    addLiteralToken st2 .stringLit (some (.string value))

/-- `identifier` (src/scanner.rs:76-101): consume alphanumeric characters,
then match the text against the reserved-word table. -/
def identifierTok (st : ScanState) : ScanState :=
  let st1 := advanceWhile st.source.length rustIsAlphanumeric st
  let text := String.mk (lexemeChars st1)
  let tt : TokenType :=
    if text = "and" then .kwAnd
    else if text = "class" then .kwClass
    else if text = "else" then .kwElse
    else if text = "false" then .kwFalse
    else if text = "for" then .kwFor
    else if text = "fun" then .kwFun
    else if text = "if" then .kwIf
    else if text = "nil" then .kwNil
    else if text = "or" then .kwOr
    else if text = "print" then .kwPrint
    else if text = "return" then .kwReturn
    else if text = "super" then .kwSuper
    else if text = "this" then .kwThis
    else if text = "true" then .kwTrue
    else if text = "var" then .kwVar
    else if text = "while" then .kwWhile
    else .identifier
  addToken st1 tt

/-- `scan_token` (src/scanner.rs:103-167); the Rust `match` on the consumed
character, written as the equivalent chain of equality tests. -/
def scanToken (st0 : ScanState) : ScanState :=
  let c := (advance st0).1
  let st := (advance st0).2
  if c = '(' then addToken st .leftParen
  else if c = ')' then addToken st .rightParen
  else if c = '{' then addToken st .leftBrace
  else if c = '}' then addToken st .rightBrace
  else if c = ',' then addToken st .comma
  else if c = '.' then addToken st .dot
  else if c = '-' then addToken st .minus
  else if c = '+' then addToken st .plus
  else if c = ';' then addToken st .semicolon
  else if c = '*' then addToken st .star
  else if c = '!' then
    let m := matchToken st '='
    if m.1 then addToken m.2 .bangEqual else addToken m.2 .bang
  else if c = '=' then
    let m := matchToken st '='
    if m.1 then addToken m.2 .equalEqual else addToken m.2 .equal
  else if c = '<' then
    let m := matchToken st '='
    if m.1 then addToken m.2 .lessEqual else addToken m.2 .less
  else if c = '>' then
    let m := matchToken st '='
    if m.1 then addToken m.2 .greaterEqual else addToken m.2 .greater
  else if c = '/' then
    let m := matchToken st '/'
    if m.1 then advanceWhile m.2.source.length (fun ch => ¬ ch = '\n') m.2
    else addToken m.2 .slash
  else if c = ' ' ∨ c = '\r' ∨ c = '\t' then st
  else if c = '\n' then { st with line := st.line + 1 }
  else if c = '"' then stringTok st
  else if rustIsNumeric c then numberTok st
  else if rustIsAlphabetic c then identifierTok st
  else reportError st st.line "Unexpected character."

/-- The `while !is_at_end { start = current; scan_token() }` loop of
`scan_tokens` (src/scanner.rs:28-37). -/
def scanLoop : Nat → ScanState → ScanState
  | 0, st => st
  | fuel + 1, st =>
    if st.current < st.source.length then
      scanLoop fuel (scanToken { st with start := st.current })
    else st

/-- Initial scanner state (`Scanner::new`). -/
def initState (source : List Char) : ScanState :=
  { source := source, tokens := [], errors := [], start := 0, current := 0, line := 1 }

/-- Final scanner state after the scan loop.  Each iteration advances
`current` by at least one, so `source.length` iterations always reach the
end of input. -/
def scanFinal (source : List Char) : ScanState :=
  scanLoop source.length (initState source)

/-- `scan_tokens`: the scanned tokens followed by the `Eof` token. -/
def scanTokens (source : List Char) : List Token :=
  let st := scanFinal source
  st.tokens ++ [⟨.eof, "", none, st.line⟩]

end Scanner

/-! ## Environment (`src/environment.rs`)

A scope (`HashMap<String, Object>`) is modelled as an association list with
unique keys in which insertion overwrites in place; lookup order within a
scope is irrelevant, matching the hash map.  The stack
`Vec<HashMap<..>>` stores the global scope first and the innermost scope
last, and every operation touches it from the innermost end (`last_mut`,
`iter().rev()`, `push`, `pop`); we therefore represent the stack with the
innermost scope at the HEAD of the list, so the global scope is the LAST
element.  This is the same stack read from the other end. -/

abbrev Scope := List (String × Obj)

/-- `HashMap::insert`: overwrite the binding for `k` if present, else add it. -/
def scopeInsert : Scope → String → Obj → Scope
  | [], k, v => [(k, v)]
  | (k', v') :: rest, k, v =>
    if k' = k then (k, v) :: rest else (k', v') :: scopeInsert rest k v

/-- `HashMap::get`. -/
def scopeGet : Scope → String → Option Obj
  | [], _ => none
  | (k', v') :: rest, k => if k' = k then some v' else scopeGet rest k

/-- `HashMap::contains_key`. -/
def scopeContains (s : Scope) (k : String) : Bool := (scopeGet s k).isSome

/-- `RuntimeError` in `src/interpreter.rs`. -/
structure RtError where
  message : String
  token : Token
deriving DecidableEq, Repr

/-- The error both `get` and `assign` build for a missing name. -/
def undefinedVar (name : Token) : RtError :=
  ⟨"Undefined variable \x27" ++ name.lexeme ++ "\x27.", name⟩

/-- `EnvironmentStack::new()`: a single empty (global) scope. -/
def envNew : List Scope := [[]]

/-- `push_environment`. -/
def pushEnvironment (env : List Scope) : List Scope := [] :: env

/-- `pop_environment`: pops the innermost scope only when more than the
global scope remains. -/
def popEnvironment (env : List Scope) : List Scope :=
  if 1 < env.length then env.tail else env

/-- `define`: insert into the innermost scope (`current_environment` is
`last_mut().unwrap()`; the stack is never empty, see claim C9). -/
def envDefine (env : List Scope) (name : Token) (v : Obj) : List Scope :=
  match env with
  | [] => []
  | top :: rest => scopeInsert top name.lexeme v :: rest

/-- `get`: search innermost → outermost (`iter().rev()`). -/
def envGet (env : List Scope) (name : Token) : Except RtError Obj :=
  match env with
  | [] => .error (undefinedVar name)
  | scope :: rest =>
    match scopeGet scope name.lexeme with
    | some v => .ok v
    | none => envGet rest name

/-- `assign`: search innermost → outermost (`iter_mut().rev()`), overwrite
the first scope that contains the key. -/
def envAssign (env : List Scope) (name : Token) (v : Obj) : Except RtError (List Scope) :=
  match env with
  | [] => .error (undefinedVar name)
  | scope :: rest =>
    if scopeContains scope name.lexeme then
      .ok (scopeInsert scope name.lexeme v :: rest)
    else
      match envAssign rest name v with
      | .ok rest' => .ok (scope :: rest')
      | .error e => .error e

/-! ## AST (`src/expressions.rs`, `src/statements.rs`) -/

/-- `Expr` in `src/expressions.rs`.  `Variable` is named `var` because
`variable` is a Lean keyword. -/
inductive Expr where
  | unary (op : Token) (right : Expr)
  | binary (left : Expr) (op : Token) (right : Expr)
  | call (callee : Expr) (paren : Token) (args : List Expr)
  | grouping (e : Expr)
  | literal (value : Obj)
  | var (name : Token)
  | assignment (name : Token) (value : Expr)
  | logical (left : Expr) (op : Token) (right : Expr)
deriving Repr

/-- `Stmt` in `src/statements.rs`.  `If`/`While` are suffixed because they
are Lean keywords. -/
inductive Stmt where
  | print (e : Expr)
  | block (stmts : List Stmt)
  | expression (e : Expr)
  | ifS (cond : Expr) (thenB : Stmt) (elseB : Option Stmt)
  | var (name : Token) (init : Option Expr)
  | whileS (cond : Expr) (body : Stmt)
deriving Repr

/-! ## Interpreter (`src/interpreter.rs`)

State = environment stack plus the list of printed values (the observable
side effects of `print`; the textual rendering is out of scope).  A Rust
`Result<_, RuntimeError>` call on `&mut self` leaves the mutated state in
place on error, so the error outcome carries the state too. -/

structure IState where
  env : List Scope
  output : List Obj
deriving DecidableEq, Repr

/-- Outcome of an interpreter call: success, runtime error, or fuel
exhaustion (a model artifact, never produced by the Rust code; theorems
either hold for every fuel or assume the call completed). -/
inductive EResult (α : Type) where
  | ok (a : α) (s : IState)
  | err (e : RtError) (s : IState)
  | fuelOut
deriving DecidableEq, Repr

/-- Sequencing of interpreter calls (the `?` operator). -/
def EResult.andThenE {α β : Type} : EResult α → (α → IState → EResult β) → EResult β
  | .ok a s, f => f a s
  | .err e s, _ => .err e s
  | .fuelOut, _ => .fuelOut

/-- `is_truthy`. -/
def isTruthy : Obj → Bool
  | .nil => false
  | .boolean b => b
  | _ => true

/-- `is_equal` (src/interpreter.rs:300-308). -/
def isEqualObj : Obj → Obj → Bool
  | .number a, .number b => decide (a = b)
  | .string a, .string b => decide (a = b)
  | .boolean a, .boolean b => decide (a = b)
  | .nil, .nil => true
  | _, _ => false

/-- `check_number_operand`. -/
def checkNumberOperand (operator : Token) (operand : Obj) : Except RtError Rat :=
  match operand with
  | .number n => .ok n
  | _ => .error ⟨"Operand must be a number", operator⟩

/-- `check_number_operands`. -/
def checkNumberOperands (op : Token) (left right : Obj) : Except RtError (Rat × Rat) :=
  match left, right with
  | .number a, .number b => .ok (a, b)
  | _, _ => .error ⟨"Operands must be two numbers", op⟩

mutual

/-- `evaluate` (src/interpreter.rs:129-140).  The source `match` has no arm
for `Expr::Call` (the interpreter predates calls); no claim exercises it,
and we model that missing arm as a runtime error at the paren token. -/
def evaluateE : Nat → Expr → IState → EResult Obj
  | 0, _, _ => .fuelOut
  | fuel + 1, e, s =>
    match e with
    | .literal lit => .ok lit s
    | .grouping inner => evaluateE fuel inner s
    | .unary op right => evalUnary fuel op right s
    | .binary l op r => evalBinary fuel l op r s
    | .var name =>
      match envGet s.env name with
      | .ok v => .ok v s
      | .error er => .err er s
    | .assignment name value => evalAssignment fuel name value s
    | .logical l op r => evalLogical fuel l op r s
    | .call _ paren _ => .err ⟨"Unhandled expression: call", paren⟩ s

/-- `evaluate_assignment_expr`. -/
def evalAssignment : Nat → Token → Expr → IState → EResult Obj
  | 0, _, _, _ => .fuelOut
  | fuel + 1, name, value, s =>
    (evaluateE fuel value s).andThenE fun v s =>
      match envAssign s.env name v with
      | .ok env' => .ok v { s with env := env' }
      | .error er => .err er s

/-- `evaluate_binary_expr` (src/interpreter.rs:154-208). -/
def evalBinary : Nat → Expr → Token → Expr → IState → EResult Obj
  | 0, _, _, _, _ => .fuelOut
  | fuel + 1, l, op, r, s =>
    (evaluateE fuel l s).andThenE fun lv s =>
    (evaluateE fuel r s).andThenE fun rv s =>
      match op.tokenType with
      | .minus =>
        match checkNumberOperands op lv rv with
        | .ok (a, b) => .ok (.number (a - b)) s
        | .error er => .err er s
      | .slash =>
        match checkNumberOperands op lv rv with
        | .ok (a, b) => .ok (.number (a / b)) s
        | .error er => .err er s
      | .star =>
        match checkNumberOperands op lv rv with
        | .ok (a, b) => .ok (.number (a * b)) s
        | .error er => .err er s
      | .plus =>
        match lv, rv with
        | .number a, .number b => .ok (.number (a + b)) s
        | .string a, .string b => .ok (.string (a ++ b)) s
        | _, _ => .err ⟨"Operands must be two numbers or two strings", op⟩ s
      | .greater =>
        match checkNumberOperands op lv rv with
        | .ok (a, b) => .ok (.boolean (decide (b < a))) s
        | .error er => .err er s
      | .greaterEqual =>
        match checkNumberOperands op lv rv with
        | .ok (a, b) => .ok (.boolean (decide (b ≤ a))) s
        | .error er => .err er s
      | .less =>
        match checkNumberOperands op lv rv with
        | .ok (a, b) => .ok (.boolean (decide (a < b))) s
        | .error er => .err er s
      | .lessEqual =>
        match checkNumberOperands op lv rv with
        | .ok (a, b) => .ok (.boolean (decide (a ≤ b))) s
        | .error er => .err er s
      | .bangEqual => .ok (.boolean (! isEqualObj lv rv)) s
      | .equalEqual => .ok (.boolean (isEqualObj lv rv)) s
      | _ => .err ⟨"Unhandled token type", op⟩ s

/-- `evaluate_logical_expr` (src/interpreter.rs:221-236). -/
def evalLogical : Nat → Expr → Token → Expr → IState → EResult Obj
  | 0, _, _, _, _ => .fuelOut
  | fuel + 1, l, op, r, s =>
    (evaluateE fuel l s).andThenE fun leftVal s =>
      if op.tokenType = .kwOr then
        if isTruthy leftVal then .ok leftVal s else evaluateE fuel r s
      else
        if ! isTruthy leftVal then .ok leftVal s else evaluateE fuel r s

/-- `evaluate_unary_expr`. -/
def evalUnary : Nat → Token → Expr → IState → EResult Obj
  | 0, _, _, _ => .fuelOut
  | fuel + 1, operator, right, s =>
    (evaluateE fuel right s).andThenE fun rv s =>
      match operator.tokenType with
      | .minus =>
        match checkNumberOperand operator rv with
        | .ok n => .ok (.number (-n)) s
        | .error er => .err er s
      | .bang => .ok (.boolean (! isTruthy rv)) s
      | _ => .err ⟨"Invalid operator", operator⟩ s

/-- `execute` (src/interpreter.rs:34-46), with the per-kind
`execute_*_statement` bodies inlined at their single dispatch site. -/
def executeS : Nat → Stmt → IState → EResult Unit
  | 0, _, _ => .fuelOut
  | fuel + 1, stmt, s =>
    match stmt with
    | .print e =>
      (evaluateE fuel e s).andThenE fun v s => .ok () { s with output := s.output ++ [v] }
    | .expression e =>
      (evaluateE fuel e s).andThenE fun _ s => .ok () s
    | .var name init =>
      (match init with
       | some e => evaluateE fuel e s
       | none => .ok Obj.nil s).andThenE fun v s =>
        .ok () { s with env := envDefine s.env name v }
    | .block stmts => executeBlock fuel stmts s
    | .ifS cond thenB elseB =>
      (evaluateE fuel cond s).andThenE fun cv s =>
        if isTruthy cv then executeS fuel thenB s
        else
          match elseB with
          | some eb => executeS fuel eb s
          | none => .ok () s
    | .whileS cond body => whileLoopI fuel cond body s

/-- `execute_block` (src/interpreter.rs:82-96): push a scope, run the
statements, pop the scope on both the success and the error path. -/
def executeBlock : Nat → List Stmt → IState → EResult Unit
  | 0, _, _ => .fuelOut
  | fuel + 1, stmts, s =>
    blockStmtsLoop fuel stmts { s with env := pushEnvironment s.env }

/-- The statement loop inside `execute_block`: on an error, pop the scope
and return the error; after the last statement, pop the scope.  (Fuel is
consumed per statement solely to keep the recursion structural.) -/
def blockStmtsLoop : Nat → List Stmt → IState → EResult Unit
  | _, [], s => .ok () { s with env := popEnvironment s.env }
  | 0, _ :: _, _ => .fuelOut
  | fuel + 1, stmt :: rest, s =>
    match executeS fuel stmt s with
    | .ok _ s' => blockStmtsLoop fuel rest s'
    | .err e s' => .err e { s' with env := popEnvironment s'.env }
    | .fuelOut => .fuelOut

/-- The `loop` inside `execute_while_statement` (src/interpreter.rs:114-127). -/
def whileLoopI : Nat → Expr → Stmt → IState → EResult Unit
  | 0, _, _, _ => .fuelOut
  | fuel + 1, cond, body, s =>
    (evaluateE fuel cond s).andThenE fun cv s =>
      if ! isTruthy cv then .ok () s
      else (executeS fuel body s).andThenE fun _ s => whileLoopI fuel cond body s

end

/-- `interpret` (src/interpreter.rs:26-32): run each top-level statement; a
runtime error is reported (raising `had_runtime_error`) and execution
continues with the next statement.  `none` only on fuel exhaustion. -/
def interpretLoop : Nat → List Stmt → IState → Bool → Option (IState × Bool)
  | _, [], s, hadErr => some (s, hadErr)
  | fuel, stmt :: rest, s, hadErr =>
    match executeS fuel stmt s with
    | .ok _ s' => interpretLoop fuel rest s' hadErr
    | .err _ s' => interpretLoop fuel rest s' true
    | .fuelOut => none

/-- A fresh interpreter (`Interpreter::new`) applied to a program. -/
def interpret (fuel : Nat) (stmts : List Stmt) : Option (IState × Bool) :=
  interpretLoop fuel stmts ⟨envNew, []⟩ false

/-! ## Parser (`src/parser.rs`)

State = token vector, cursor, and the `(token, message)` diagnostics passed
to `error_reporter.error_at_token`, in order of emission.  A call either
returns a value, throws `ParseError` (`perr`; the diagnostic is already in
the state), panics (`panicked`, the `unwrap` in `primary` on a payloadless
literal token — claim C10), or runs out of fuel (model artifact). -/

structure PState where
  tokens : List Token
  current : Nat
  errors : List (Token × String)
deriving DecidableEq, Repr

/-- Out-of-bounds default for token access; `tokens[idx]` in Rust panics
out of bounds, but every access is in bounds for the `Eof`-terminated
sequences the scanner produces. -/
def defaultToken : Token := ⟨.eof, "", none, 0⟩

inductive PResult (α : Type) where
  | ok (a : α) (st : PState)
  | perr (st : PState)
  | panicked
  | fuelOut
deriving DecidableEq, Repr

/-- Sequencing of parser calls (the `?` operator). -/
def PResult.andThen {α β : Type} : PResult α → (α → PState → PResult β) → PResult β
  | .ok a st, f => f a st
  | .perr st, _ => .perr st
  | .panicked, _ => .panicked
  | .fuelOut, _ => .fuelOut

namespace Parser

/-- `peek`. -/
def peekT (st : PState) : Token := st.tokens.getD st.current defaultToken

/-- `previous`. -/
def previousT (st : PState) : Token := st.tokens.getD (st.current - 1) defaultToken

/-- `is_at_end`. -/
def isAtEndT (st : PState) : Bool := (peekT st).tokenType = .eof

/-- `advance`: returns `previous()` of the advanced state. -/
def advanceT (st : PState) : Token × PState :=
  let st' := if isAtEndT st then st else { st with current := st.current + 1 }
  (previousT st', st')

/-- `check`. -/
def checkT (st : PState) (tt : TokenType) : Bool :=
  if isAtEndT st then false else (peekT st).tokenType = tt

/-- `match_token`: try each type in order; on the first `check` success,
advance and answer `true`. -/
def matchT : PState → List TokenType → Bool × PState
  | st, [] => (false, st)
  | st, tt :: rest =>
    if checkT st tt then (true, (advanceT st).2) else matchT st rest

/-- `error_reporter.error_at_token(token, message)`. -/
def reportErrAt (st : PState) (tok : Token) (msg : String) : PState :=
  { st with errors := st.errors ++ [(tok, msg)] }

/-- `consume`. -/
def consumeT (st : PState) (tt : TokenType) (msg : String) : PResult Token :=
  if checkT st tt then
    let a := advanceT st
    .ok a.1 a.2
  else .perr (reportErrAt st (peekT st) msg)

/-- The `while` loop of `synchronize` (src/parser.rs:390-412). -/
def syncLoop : Nat → PState → PState
  | 0, st => st
  | fuel + 1, st =>
    if isAtEndT st then st
    else if (previousT st).tokenType = .semicolon then st
    else if (peekT st).tokenType = .kwClass ∨ (peekT st).tokenType = .kwFor ∨
            (peekT st).tokenType = .kwFun ∨ (peekT st).tokenType = .kwIf ∨
            (peekT st).tokenType = .kwPrint ∨ (peekT st).tokenType = .kwReturn ∨
            (peekT st).tokenType = .kwVar ∨ (peekT st).tokenType = .kwWhile then st
    else syncLoop fuel (advanceT st).2

/-- `synchronize`: one `advance`, then discard tokens up to a statement
boundary.  The loop advances the cursor each step, so `tokens.length + 1`
iterations always suffice. -/
def synchronize (st : PState) : PState :=
  syncLoop (st.tokens.length + 1) (advanceT st).2

mutual

/-- `expression`. -/
def expressionP : Nat → PState → PResult Expr
  | 0, _ => .fuelOut
  | fuel + 1, st => assignmentP fuel st

/-- `assignment` (src/parser.rs:191-204).  A non-variable assignment target
is a reported, non-fatal error: the already-parsed left expression is
returned. -/
def assignmentP : Nat → PState → PResult Expr
  | 0, _ => .fuelOut
  | fuel + 1, st =>
    (orP fuel st).andThen fun expr st =>
      let m := matchT st [.equal]
      if m.1 then
        let equals := previousT m.2
        (assignmentP fuel m.2).andThen fun value st =>
          match expr with
          | .var name => .ok (.assignment name value) st
          | _ => .ok expr (reportErrAt st equals "Invalid assignment target")
      else .ok expr m.2

/-- `or`. -/
def orP : Nat → PState → PResult Expr
  | 0, _ => .fuelOut
  | fuel + 1, st => (andP fuel st).andThen fun e st => orLoop fuel e st

def orLoop : Nat → Expr → PState → PResult Expr
  | 0, _, _ => .fuelOut
  | fuel + 1, expr, st =>
    let m := matchT st [.kwOr]
    if m.1 then
      let op := previousT m.2
      (andP fuel m.2).andThen fun right st =>
        orLoop fuel (.logical expr op right) st
    else .ok expr m.2

/-- `and`. -/
def andP : Nat → PState → PResult Expr
  | 0, _ => .fuelOut
  | fuel + 1, st => (equalityP fuel st).andThen fun e st => andLoop fuel e st

def andLoop : Nat → Expr → PState → PResult Expr
  | 0, _, _ => .fuelOut
  | fuel + 1, expr, st =>
    let m := matchT st [.kwAnd]
    if m.1 then
      let op := previousT m.2
      (equalityP fuel m.2).andThen fun right st =>
        andLoop fuel (.logical expr op right) st
    else .ok expr m.2

/-- `equality`. -/
def equalityP : Nat → PState → PResult Expr
  | 0, _ => .fuelOut
  | fuel + 1, st => (comparisonP fuel st).andThen fun e st => equalityLoop fuel e st

def equalityLoop : Nat → Expr → PState → PResult Expr
  | 0, _, _ => .fuelOut
  | fuel + 1, expr, st =>
    let m := matchT st [.bangEqual, .equalEqual]
    if m.1 then
      let op := previousT m.2
      (comparisonP fuel m.2).andThen fun right st =>
        equalityLoop fuel (.binary expr op right) st
    else .ok expr m.2

/-- `comparison`. -/
def comparisonP : Nat → PState → PResult Expr
  | 0, _ => .fuelOut
  | fuel + 1, st => (termP fuel st).andThen fun e st => comparisonLoop fuel e st

def comparisonLoop : Nat → Expr → PState → PResult Expr
  | 0, _, _ => .fuelOut
  | fuel + 1, expr, st =>
    let m := matchT st [.greater, .greaterEqual, .less, .lessEqual]
    if m.1 then
      let op := previousT m.2
      (termP fuel m.2).andThen fun right st =>
        comparisonLoop fuel (.binary expr op right) st
    else .ok expr m.2

/-- `term`. -/
def termP : Nat → PState → PResult Expr
  | 0, _ => .fuelOut
  | fuel + 1, st => (factorP fuel st).andThen fun e st => termLoop fuel e st

def termLoop : Nat → Expr → PState → PResult Expr
  | 0, _, _ => .fuelOut
  | fuel + 1, expr, st =>
    let m := matchT st [.minus, .plus]
    if m.1 then
      let op := previousT m.2
      (factorP fuel m.2).andThen fun right st =>
        termLoop fuel (.binary expr op right) st
    else .ok expr m.2

/-- `factor`. -/
def factorP : Nat → PState → PResult Expr
  | 0, _ => .fuelOut
  | fuel + 1, st => (unaryP fuel st).andThen fun e st => factorLoop fuel e st

def factorLoop : Nat → Expr → PState → PResult Expr
  | 0, _, _ => .fuelOut
  | fuel + 1, expr, st =>
    let m := matchT st [.slash, .star]
    if m.1 then
      let op := previousT m.2
      (unaryP fuel m.2).andThen fun right st =>
        factorLoop fuel (.binary expr op right) st
    else .ok expr m.2

/-- `unary`. -/
def unaryP : Nat → PState → PResult Expr
  | 0, _ => .fuelOut
  | fuel + 1, st =>
    let m := matchT st [.bang, .minus]
    if m.1 then
      let op := previousT m.2
      (unaryP fuel m.2).andThen fun right st => .ok (.unary op right) st
    else callP fuel m.2

/-- `call`. -/
def callP : Nat → PState → PResult Expr
  | 0, _ => .fuelOut
  | fuel + 1, st => (primaryP fuel st).andThen fun e st => callLoop fuel e st

def callLoop : Nat → Expr → PState → PResult Expr
  | 0, _, _ => .fuelOut
  | fuel + 1, expr, st =>
    let m := matchT st [.leftParen]
    if m.1 then
      (finishCall fuel expr m.2).andThen fun e st => callLoop fuel e st
    else .ok expr m.2

/-- `finish_call` (src/parser.rs:281-299). -/
def finishCall : Nat → Expr → PState → PResult Expr
  | 0, _, _ => .fuelOut
  | fuel + 1, callee, st =>
    (if checkT st .rightParen then (.ok [] st : PResult (List Expr))
     else argsLoop fuel [] st).andThen fun args st =>
      (consumeT st .rightParen "Expect \x27)\x27 after arguments.").andThen fun paren st =>
        .ok (.call callee paren args) st

/-- The argument `loop` of `finish_call`: parse an argument, report (but do
not throw) "Too many arguments" once the list holds 255 or more, continue
while a comma follows. -/
def argsLoop : Nat → List Expr → PState → PResult (List Expr)
  | 0, _, _ => .fuelOut
  | fuel + 1, args, st =>
    (expressionP fuel st).andThen fun arg st =>
      let args := args ++ [arg]
      let st := if 255 ≤ args.length then
                  reportErrAt st (peekT st) "Too many arguments in function call."
                else st
      let m := matchT st [.comma]
      if m.1 then argsLoop fuel args m.2 else .ok args m.2

/-- `primary` (src/parser.rs:314-338).  The `unwrap` on the literal payload
of a `Number`/`String` token is the `panicked` outcome. -/
def primaryP : Nat → PState → PResult Expr
  | 0, _ => .fuelOut
  | fuel + 1, st =>
    let m := matchT st [.kwFalse]
    if m.1 then .ok (.literal (.boolean false)) m.2 else
    let m := matchT m.2 [.kwTrue]
    if m.1 then .ok (.literal (.boolean true)) m.2 else
    let m := matchT m.2 [.kwNil]
    if m.1 then .ok (.literal .nil) m.2 else
    let m := matchT m.2 [.number, .stringLit]
    if m.1 then
      match (previousT m.2).literal with
      | some lit => .ok (.literal lit) m.2
      | none => .panicked
    else
    let m := matchT m.2 [.identifier]
    if m.1 then .ok (.var (previousT m.2)) m.2 else
    let m := matchT m.2 [.leftParen]
    if m.1 then
      (expressionP fuel m.2).andThen fun e st =>
        (consumeT st .rightParen "Expect \x27)\x27 after expression.").andThen fun _ st =>
          .ok (.grouping e) st
    else .perr (reportErrAt m.2 (peekT m.2) "Expect expression.")

/-- `declaration` (src/parser.rs:38-52): a parse error is caught here,
`synchronize` runs, and no statement is produced. -/
def declarationP : Nat → PState → PResult (Option Stmt)
  | 0, _ => .fuelOut
  | fuel + 1, st =>
    let m := matchT st [.kwVar]
    match (if m.1 then varDeclarationP fuel m.2 else statementP fuel m.2) with
    | .ok s st => .ok (some s) st
    | .perr st => .ok none (synchronize st)
    | .panicked => .panicked
    | .fuelOut => .fuelOut

/-- `statement` (src/parser.rs:54-72). -/
def statementP : Nat → PState → PResult Stmt
  | 0, _ => .fuelOut
  | fuel + 1, st =>
    let m := matchT st [.kwPrint]
    if m.1 then printStatementP fuel m.2 else
    let m := matchT m.2 [.leftBrace]
    if m.1 then (blockP fuel m.2).andThen fun stmts st => .ok (.block stmts) st else
    let m := matchT m.2 [.kwIf]
    if m.1 then ifStatementP fuel m.2 else
    let m := matchT m.2 [.kwWhile]
    if m.1 then whileStatementP fuel m.2 else
    let m := matchT m.2 [.kwFor]
    if m.1 then forStatementP fuel m.2 else
    expressionStatementP fuel m.2

/-- `for_statement` (src/parser.rs:74-121): desugar
`for ( init ; cond ; incr ) body` into blocks and a `While`; an omitted
condition becomes the literal `true`. -/
def forStatementP : Nat → PState → PResult Stmt
  | 0, _ => .fuelOut
  | fuel + 1, st =>
    (consumeT st .leftParen "Expect \x27(\x27 after \x27for\x27.").andThen fun _ st =>
    (let m := matchT st [.semicolon]
     if m.1 then (.ok none m.2 : PResult (Option Stmt))
     else
       let m2 := matchT m.2 [.kwVar]
       if m2.1 then (varDeclarationP fuel m2.2).andThen fun s st => .ok (some s) st
       else (expressionStatementP fuel m2.2).andThen fun s st => .ok (some s) st
    ).andThen fun initializer st =>
    (if ¬ checkT st .semicolon then
       (expressionP fuel st).andThen fun c st => (.ok (some c) st : PResult (Option Expr))
     else .ok none st).andThen fun condition st =>
    (consumeT st .semicolon "Expect \x27;\x27 after loop condition.").andThen fun _ st =>
    (if ¬ checkT st .rightParen then
       (expressionP fuel st).andThen fun i st => (.ok (some i) st : PResult (Option Expr))
     else .ok none st).andThen fun increment st =>
    (consumeT st .rightParen "Expect \x27)\x27 after for clauses.").andThen fun _ st =>
    (statementP fuel st).andThen fun body st =>
      let bodyWithIncrement :=
        match increment with
        | some inc => Stmt.block [body, .expression inc]
        | none => body
      let whileLoop :=
        match condition with
        | some c => Stmt.whileS c bodyWithIncrement
        | none => Stmt.whileS (.literal (.boolean true)) bodyWithIncrement
      let result :=
        match initializer with
        | some i => Stmt.block [i, whileLoop]
        | none => whileLoop
      .ok result st

/-- `if_statement`. -/
def ifStatementP : Nat → PState → PResult Stmt
  | 0, _ => .fuelOut
  | fuel + 1, st =>
    (consumeT st .leftParen "Expect \x27(\x27 after \x27if\x27.").andThen fun _ st =>
    (expressionP fuel st).andThen fun condition st =>
    (consumeT st .rightParen "Expect \x27)\x27 after if condition.").andThen fun _ st =>
    (statementP fuel st).andThen fun thenBranch st =>
      let m := matchT st [.kwElse]
      if m.1 then
        (statementP fuel m.2).andThen fun elseBranch st =>
          .ok (.ifS condition thenBranch (some elseBranch)) st
      else .ok (.ifS condition thenBranch none) m.2

/-- `var_declaration`. -/
def varDeclarationP : Nat → PState → PResult Stmt
  | 0, _ => .fuelOut
  | fuel + 1, st =>
    (consumeT st .identifier "Expect variable name.").andThen fun name st =>
    (let m := matchT st [.equal]
     if m.1 then
       (expressionP fuel m.2).andThen fun e st => (.ok (some e) st : PResult (Option Expr))
     else .ok none m.2).andThen fun initializer st =>
    (consumeT st .semicolon "Expect \x27;\x27 after variable declaration.").andThen fun _ st =>
      .ok (.var name initializer) st

/-- `while_statement`. -/
def whileStatementP : Nat → PState → PResult Stmt
  | 0, _ => .fuelOut
  | fuel + 1, st =>
    (consumeT st .leftParen "Expect \x27(\x27 after \x27while\x27.").andThen fun _ st =>
    (expressionP fuel st).andThen fun condition st =>
    (consumeT st .rightParen "Expect \x27)\x27 after condition.").andThen fun _ st =>
    (statementP fuel st).andThen fun body st =>
      .ok (.whileS condition body) st

/-- `print_statement`. -/
def printStatementP : Nat → PState → PResult Stmt
  | 0, _ => .fuelOut
  | fuel + 1, st =>
    (expressionP fuel st).andThen fun value st =>
    (consumeT st .semicolon "Expect \x27;\x27 after value.").andThen fun _ st =>
      .ok (.print value) st

/-- `expression_statement`. -/
def expressionStatementP : Nat → PState → PResult Stmt
  | 0, _ => .fuelOut
  | fuel + 1, st =>
    (expressionP fuel st).andThen fun e st =>
    (consumeT st .semicolon "Expect \x27;\x27 after value.").andThen fun _ st =>
      .ok (.expression e) st

/-- `block` (src/parser.rs:180-189): collect declarations until `}` or end
of input, then `consume` the `}`. -/
def blockP : Nat → PState → PResult (List Stmt)
  | 0, _ => .fuelOut
  | fuel + 1, st => blockLoop fuel [] st

def blockLoop : Nat → List Stmt → PState → PResult (List Stmt)
  | 0, _, _ => .fuelOut
  | fuel + 1, acc, st =>
    if ¬ checkT st .rightBrace ∧ ¬ isAtEndT st then
      (declarationP fuel st).andThen fun os st =>
        blockLoop fuel (match os with | some s => acc ++ [s] | none => acc) st
    else
      (consumeT st .rightBrace "Expect \x27\x7d\x27 after block.").andThen fun _ st =>
        .ok acc st

/-- The `while !is_at_end` loop of `parse` (src/parser.rs:24-32). -/
def parseLoop : Nat → List Stmt → PState → PResult (List Stmt)
  | 0, _, _ => .fuelOut
  | fuel + 1, acc, st =>
    if isAtEndT st then .ok acc st
    else
      (declarationP fuel st).andThen fun os st =>
        parseLoop fuel (match os with | some s => acc ++ [s] | none => acc) st

end

/-- `Parser::new(tokens).parse()`. -/
def parseP (fuel : Nat) (tokens : List Token) : PResult (List Stmt) :=
  parseLoop fuel [] ⟨tokens, 0, []⟩

end Parser

/-! ## Supporting lemmas and claim theorems -/

/-- The kind (tag) of a runtime value, used to state that values of
different kinds never compare equal. -/
def objKind : Obj → Nat
  | .string _ => 0
  | .number _ => 1
  | .nil => 2
  | .boolean _ => 3

/-- A single environment-stack operation, for quantifying over operation
sequences in claim C9.  `assignOp` keeps the stack unchanged when `assign`
errors, exactly as the Rust method leaves `self` untouched on the error
path. -/
inductive EnvOp where
  | push
  | pop
  | defineOp (name : Token) (v : Obj)
  | assignOp (name : Token) (v : Obj)

def applyOp (env : List Scope) : EnvOp → List Scope
  | .push => pushEnvironment env
  | .pop => popEnvironment env
  | .defineOp n v => envDefine env n v
  | .assignOp n v =>
    match envAssign env n v with
    | .ok env' => env'
    | .error _ => env

def applyOps (env : List Scope) (ops : List EnvOp) : List Scope :=
  ops.foldl applyOp env

lemma scopeInsert_get_same (sc : Scope) (k : String) (v : Obj) :
    scopeGet (scopeInsert sc k v) k = some v := by
  induction sc with
  | nil => simp [scopeInsert, scopeGet]
  | cons hd tl ih =>
    obtain ⟨k', v'⟩ := hd
    by_cases h : k' = k
    · simp [scopeInsert, scopeGet, h]
    · simp [scopeInsert, scopeGet, h, ih]

lemma scopeInsert_get_other (sc : Scope) (k k' : String) (v : Obj) (h : ¬ k' = k) :
    scopeGet (scopeInsert sc k v) k' = scopeGet sc k' := by
  have h' : ¬ k = k' := fun he => h he.symm
  induction sc with
  | nil =>
    simp only [scopeInsert, scopeGet]
    rw [if_neg h']
  | cons hd tl ih =>
    obtain ⟨k₀, v₀⟩ := hd
    by_cases h0 : k₀ = k
    · subst h0
      simp only [scopeInsert, if_pos rfl, scopeGet]
      rw [if_neg h', if_neg h']
    · simp only [scopeInsert, if_neg h0, scopeGet, ih]

lemma scopeInsert_contains (sc : Scope) (k k' : String) (v : Obj)
    (hk : scopeContains sc k = true) :
    scopeContains (scopeInsert sc k v) k' = scopeContains sc k' := by
  by_cases h : k' = k
  · subst h
    unfold scopeContains at hk ⊢
    rw [scopeInsert_get_same]
    simp [hk]
  · unfold scopeContains
    rw [scopeInsert_get_other sc k k' v h]

lemma envAssign_found (pre : List Scope) (scope : Scope) (post : List Scope)
    (name : Token) (v : Obj)
    (hpre : ∀ sc ∈ pre, scopeContains sc name.lexeme = false)
    (hscope : scopeContains scope name.lexeme = true) :
    envAssign (pre ++ scope :: post) name v =
      .ok (pre ++ scopeInsert scope name.lexeme v :: post) := by
  induction pre with
  | nil => simp [envAssign, hscope]
  | cons hd tl ih =>
    have hhd := hpre hd (by simp)
    have htl : ∀ sc ∈ tl, scopeContains sc name.lexeme = false :=
      fun sc hsc => hpre sc (by simp [hsc])
    simp [envAssign, hhd, ih htl]

lemma envAssign_missing (env : List Scope) (name : Token) (v : Obj)
    (h : ∀ sc ∈ env, scopeContains sc name.lexeme = false) :
    envAssign env name v = .error (undefinedVar name) := by
  induction env with
  | nil => simp [envAssign]
  | cons hd tl ih =>
    have hhd := h hd (by simp)
    have htl : ∀ sc ∈ tl, scopeContains sc name.lexeme = false :=
      fun sc hsc => h sc (by simp [hsc])
    simp [envAssign, hhd, ih htl]

/-- **C5.** `assign` overwrites the binding in the innermost scope that
contains the name, leaving every other scope unchanged and not disturbing
the other bindings of the modified scope; when no scope contains the name
it fails with the "Undefined variable" error (the Rust method performs no
mutation before returning on that path, so the stack is unchanged), and it
never inserts a fresh key anywhere: the key set of the one modified scope
is exactly preserved. -/
theorem C5_assign_spec :
    (∀ (pre : List Scope) (scope : Scope) (post : List Scope) (name : Token) (v : Obj),
      (∀ sc ∈ pre, scopeContains sc name.lexeme = false) →
      scopeContains scope name.lexeme = true →
      envAssign (pre ++ scope :: post) name v =
        .ok (pre ++ scopeInsert scope name.lexeme v :: post) ∧
      scopeGet (scopeInsert scope name.lexeme v) name.lexeme = some v ∧
      (∀ k', ¬ k' = name.lexeme →
        scopeGet (scopeInsert scope name.lexeme v) k' = scopeGet scope k') ∧
      (∀ k', scopeContains (scopeInsert scope name.lexeme v) k' = scopeContains scope k')) ∧
    (∀ (env : List Scope) (name : Token) (v : Obj),
      (∀ sc ∈ env, scopeContains sc name.lexeme = false) →
      envAssign env name v = .error (undefinedVar name)) := by
  constructor
  · intro pre scope post name v hpre hscope
    exact ⟨envAssign_found pre scope post name v hpre hscope,
      scopeInsert_get_same scope name.lexeme v,
      fun k' hk' => scopeInsert_get_other scope name.lexeme k' v hk',
      fun k' => scopeInsert_contains scope name.lexeme k' v hscope⟩
  · exact envAssign_missing

/-- Witness for C5 at concrete inputs: the innermost containing scope (an
outer scope shadowed by a non-containing inner scope) is overwritten, and
an unbound name errors. -/
theorem C5_assign_spec_witness :
    envAssign [[("b", .nil)], [("a", .number 1)], []] ⟨.identifier, "a", none, 1⟩
        (.number 2) =
      .ok [[("b", .nil)], [("a", .number 2)], []] ∧
    envAssign [[("b", .nil)]] ⟨.identifier, "a", none, 1⟩ (.number 2) =
      .error (undefinedVar ⟨.identifier, "a", none, 1⟩) := by
  constructor
  · have h := (C5_assign_spec.1 [[("b", .nil)]] [("a", .number 1)] [[]]
      ⟨.identifier, "a", none, 1⟩ (.number 2) (by decide) (by decide)).1
    simpa using h
  · exact C5_assign_spec.2 [[("b", .nil)]] ⟨.identifier, "a", none, 1⟩ (.number 2) (by decide)

lemma envAssign_ok_length (env : List Scope) (n : Token) (v : Obj) (env' : List Scope)
    (hr : envAssign env n v = .ok env') : env'.length = env.length := by
  induction env generalizing env' with
  | nil => simp [envAssign] at hr
  | cons hd tl ih =>
    simp only [envAssign] at hr
    by_cases hc : scopeContains hd n.lexeme
    · simp only [if_pos hc] at hr
      cases hr
      simp
    · simp only [if_neg hc] at hr
      cases hr' : envAssign tl n v with
      | error e => simp [hr'] at hr
      | ok tl' =>
        simp only [hr'] at hr
        cases hr
        simp [ih tl' hr']

lemma applyOp_length (env : List Scope) (op : EnvOp) (h : 1 ≤ env.length) :
    1 ≤ (applyOp env op).length := by
  cases op with
  | push => simp [applyOp, pushEnvironment]
  | pop =>
    simp only [applyOp, popEnvironment]
    by_cases h1 : 1 < env.length
    · simp only [if_pos h1]
      cases env with
      | nil => simp at h
      | cons hd tl => simp at h1 ⊢; omega
    · simpa [if_neg h1] using h
  | defineOp n v =>
    cases env with
    | nil => simp at h
    | cons hd tl => simp [applyOp, envDefine]
  | assignOp n v =>
    simp only [applyOp]
    cases hr : envAssign env n v with
    | error e => exact h
    | ok env' => exact (envAssign_ok_length env n v env' hr) ▸ h

lemma applyOps_length (ops : List EnvOp) :
    ∀ env, 1 ≤ env.length → 1 ≤ (applyOps env ops).length := by
  induction ops with
  | nil => intro env h; simpa [applyOps] using h
  | cons op rest ih =>
    intro env h
    simpa [applyOps, List.foldl_cons] using ih (applyOp env op) (applyOp_length env op h)

/-- **C9.** Starting from the fresh stack, any sequence of
`push_environment` / `pop_environment` / `define` / `assign` operations
leaves at least one scope; popping when only the global scope remains is a
no-op; and `pop_environment` never changes the global scope (the last
element in this innermost-first representation, i.e. position 0 of the
Rust `Vec`), so global bindings survive every pop. -/
theorem C9_global_scope_persists :
    (∀ ops : List EnvOp, 1 ≤ (applyOps envNew ops).length) ∧
    (∀ env : List Scope, env.length = 1 → popEnvironment env = env) ∧
    (∀ env : List Scope, (popEnvironment env).getLastD [] = env.getLastD []) := by
  refine ⟨fun ops => applyOps_length ops envNew (by simp [envNew]), ?_, ?_⟩
  · intro env h
    simp [popEnvironment, h]
  · intro env
    simp only [popEnvironment]
    by_cases h : 1 < env.length
    · simp only [if_pos h]
      cases env with
      | nil => simp
      | cons hd tl =>
        cases tl with
        | nil => simp at h
        | cons hd' tl' => simp [List.getLastD_cons]
    · simp [if_neg h]

/-- Witness for C9 at concrete inputs: a push/define/pop/pop/define
sequence keeps the stack nonempty, popping the lone global scope does
nothing, and a pop does not change the global scope. -/
theorem C9_global_scope_persists_witness :
    1 ≤ (applyOps envNew
      [.defineOp ⟨.identifier, "a", none, 1⟩ (.string "g"), .push,
       .defineOp ⟨.identifier, "a", none, 1⟩ (.string "inner"), .pop, .pop, .pop]).length ∧
    popEnvironment [[("a", .string "g")]] = [[("a", .string "g")]] ∧
    (popEnvironment [[("x", .nil)], [("a", .string "g")]]).getLastD [] =
      [[("x", .nil)], [("a", .string "g")]].getLastD [] := by
  exact ⟨C9_global_scope_persists.1 _,
    C9_global_scope_persists.2.1 [[("a", .string "g")]] (by decide),
    C9_global_scope_persists.2.2 _⟩

/-- **C6.** `==`/`!=` never produce a runtime error: whenever both
operands evaluate, the comparison yields a Boolean; values of different
kinds are never equal; `Nil` equals only `Nil`; same-kind values compare
by underlying value; and `!=` yields the negation of `==`. -/
theorem C6_equality_total :
    (∀ (fuel : Nat) (l r : Expr) (op : Token) (s s1 s2 : IState) (lv rv : Obj),
      evaluateE fuel l s = .ok lv s1 →
      evaluateE fuel r s1 = .ok rv s2 →
      (op.tokenType = .equalEqual →
        evaluateE (fuel + 2) (.binary l op r) s = .ok (.boolean (isEqualObj lv rv)) s2) ∧
      (op.tokenType = .bangEqual →
        evaluateE (fuel + 2) (.binary l op r) s = .ok (.boolean (! isEqualObj lv rv)) s2)) ∧
    (∀ a b : Obj, ¬ objKind a = objKind b → isEqualObj a b = false) ∧
    (∀ b : Obj, isEqualObj .nil b = true ↔ b = .nil) ∧
    (∀ a b : Rat, isEqualObj (.number a) (.number b) = decide (a = b)) ∧
    (∀ a b : String, isEqualObj (.string a) (.string b) = decide (a = b)) ∧
    (∀ a b : Bool, isEqualObj (.boolean a) (.boolean b) = decide (a = b)) := by
  refine ⟨?_, ?_, ?_, fun a b => rfl, fun a b => rfl, fun a b => rfl⟩
  · intro fuel l r op s s1 s2 lv rv hl hr
    constructor <;> intro hop <;>
      simp [evaluateE, evalBinary, hl, hr, hop, EResult.andThenE]
  · intro a b h
    cases a <;> cases b <;> simp [isEqualObj] <;> simp [objKind] at h
  · intro b
    cases b <;> simp [isEqualObj]

/-- Witness for C6 at concrete inputs: `1 == true` evaluates to `false`
(no error), and `1 != 1` evaluates to the negation of `1 == 1`. -/
theorem C6_equality_total_witness :
    evaluateE 3 (.binary (.literal (.number 1)) ⟨.equalEqual, "==", none, 1⟩
        (.literal (.boolean true))) ⟨envNew, []⟩ =
      .ok (.boolean (isEqualObj (.number 1) (.boolean true))) ⟨envNew, []⟩ ∧
    isEqualObj (.number 1) (.boolean true) = false ∧
    evaluateE 3 (.binary (.literal (.number 1)) ⟨.bangEqual, "!=", none, 1⟩
        (.literal (.number 1))) ⟨envNew, []⟩ =
      .ok (.boolean (! isEqualObj (.number 1) (.number 1))) ⟨envNew, []⟩ := by
  refine ⟨?_, ?_, ?_⟩
  · exact ((C6_equality_total.1 1 (.literal (.number 1)) (.literal (.boolean true))
      ⟨.equalEqual, "==", none, 1⟩ ⟨envNew, []⟩ ⟨envNew, []⟩ ⟨envNew, []⟩
      (.number 1) (.boolean true) rfl rfl).1 rfl)
  · exact C6_equality_total.2.1 (.number 1) (.boolean true) (by decide)
  · exact ((C6_equality_total.1 1 (.literal (.number 1)) (.literal (.number 1))
      ⟨.bangEqual, "!=", none, 1⟩ ⟨envNew, []⟩ ⟨envNew, []⟩ ⟨envNew, []⟩
      (.number 1) (.number 1) rfl rfl).2 rfl)

/-- **C4.** Logical expressions evaluate the left operand first; `or` with
a truthy left value and `and` with a falsy left value return that left
value without ever touching the right operand (the right expression `r` is
arbitrary and absent from the result, so none of its effects or errors can
occur); otherwise the result is the evaluation of the right operand in the
state left by the left operand.  Concretely, `false and (1/0)` evaluates
to `false` with no error. -/
theorem C4_logical_short_circuit :
    (∀ (fuel : Nat) (l r : Expr) (op : Token) (s s' : IState) (v : Obj),
      evaluateE fuel l s = .ok v s' →
      (op.tokenType = .kwOr → isTruthy v = true →
        evaluateE (fuel + 2) (.logical l op r) s = .ok v s') ∧
      (op.tokenType = .kwAnd → isTruthy v = false →
        evaluateE (fuel + 2) (.logical l op r) s = .ok v s') ∧
      (op.tokenType = .kwOr → isTruthy v = false →
        evaluateE (fuel + 2) (.logical l op r) s = evaluateE fuel r s') ∧
      (op.tokenType = .kwAnd → isTruthy v = true →
        evaluateE (fuel + 2) (.logical l op r) s = evaluateE fuel r s')) ∧
    evaluateE 10
        (.logical (.literal (.boolean false)) ⟨.kwAnd, "and", none, 1⟩
          (.binary (.literal (.number 1)) ⟨.slash, "/", none, 1⟩ (.literal (.number 0))))
        ⟨envNew, []⟩ =
      .ok (.boolean false) ⟨envNew, []⟩ := by
  constructor
  · intro fuel l r op s s' v hl
    refine ⟨?_, ?_, ?_, ?_⟩ <;> intro hop htv <;>
      simp [evaluateE, evalLogical, hl, EResult.andThenE, hop, htv]
  · rfl

/-- Witness for C4 at concrete inputs: `or` with truthy left returns the
left value; `and` with truthy left returns the right evaluation. -/
theorem C4_logical_short_circuit_witness :
    evaluateE 3 (.logical (.literal (.number 7)) ⟨.kwOr, "or", none, 1⟩ (.literal .nil))
        ⟨envNew, []⟩ = .ok (.number 7) ⟨envNew, []⟩ ∧
    evaluateE 3 (.logical (.literal (.boolean true)) ⟨.kwAnd, "and", none, 1⟩ (.literal .nil))
        ⟨envNew, []⟩ = evaluateE 1 (.literal .nil) ⟨envNew, []⟩ := by
  constructor
  · exact (C4_logical_short_circuit.1 1 (.literal (.number 7)) (.literal .nil)
      ⟨.kwOr, "or", none, 1⟩ ⟨envNew, []⟩ ⟨envNew, []⟩ (.number 7) rfl).1 rfl rfl
  · exact (C4_logical_short_circuit.1 1 (.literal (.boolean true)) (.literal .nil)
      ⟨.kwAnd, "and", none, 1⟩ ⟨envNew, []⟩ ⟨envNew, []⟩ (.boolean true) rfl).2.2.2 rfl rfl

/-! Concrete token sequences used by the parser claims. -/

/-- A payloadless token on line 1. -/
def mkTok (tt : TokenType) (lx : String) : Token := ⟨tt, lx, none, 1⟩

/-- A number token with its literal payload, as the scanner produces. -/
def numTok (lx : String) (n : Rat) : Token := ⟨.number, lx, some (.number n), 1⟩

/-- The token sequence for `for (var i = 0; i < 3; i = i + 1) print i;`. -/
def forToks : List Token :=
  [ mkTok .kwFor "for", mkTok .leftParen "(", mkTok .kwVar "var", mkTok .identifier "i",
    mkTok .equal "=", numTok "0" 0, mkTok .semicolon ";",
    mkTok .identifier "i", mkTok .less "<", numTok "3" 3, mkTok .semicolon ";",
    mkTok .identifier "i", mkTok .equal "=", mkTok .identifier "i", mkTok .plus "+",
    numTok "1" 1, mkTok .rightParen ")", mkTok .kwPrint "print", mkTok .identifier "i",
    mkTok .semicolon ";", mkTok .eof "" ]

/-- The desugaring the spec predicts for `forToks`:
`Block([Var(i,0), While(i<3, Block([Print(i), Expression(i = i+1)]))])`. -/
def forDesugared : Stmt :=
  .block
    [ .var (mkTok .identifier "i") (some (.literal (.number 0))),
      .whileS (.binary (.var (mkTok .identifier "i")) (mkTok .less "<") (.literal (.number 3)))
        (.block
          [ .print (.var (mkTok .identifier "i")),
            .expression (.assignment (mkTok .identifier "i")
              (.binary (.var (mkTok .identifier "i")) (mkTok .plus "+")
                (.literal (.number 1)))) ]) ]

/-- The token sequence for `for (;;) print 1;` (all three clauses omitted). -/
def forNoCondToks : List Token :=
  [ mkTok .kwFor "for", mkTok .leftParen "(", mkTok .semicolon ";", mkTok .semicolon ";",
    mkTok .rightParen ")", mkTok .kwPrint "print", numTok "1" 1, mkTok .semicolon ";",
    mkTok .eof "" ]

/-- **C8.** Parsing `for (var i = 0; i < 3; i = i + 1) print i;` produces
exactly the desugared `Block [Var, While ..]` statement (with no
diagnostics); an omitted condition desugars to the literal `true` (shown
on `for (;;) print 1;`); and the statement model has no `For` variant:
every statement is a `Print`, `Block`, `Expression`, `If`, `Var` or
`While`. -/
theorem C8_for_desugars_to_while :
    Parser.parseP 100 forToks = .ok [forDesugared] ⟨forToks, 20, []⟩ ∧
    Parser.parseP 100 forNoCondToks =
      .ok [.whileS (.literal (.boolean true)) (.print (.literal (.number 1)))]
        ⟨forNoCondToks, 8, []⟩ ∧
    (∀ s : Stmt,
      (∃ e, s = .print e) ∨ (∃ ss, s = .block ss) ∨ (∃ e, s = .expression e) ∨
      (∃ c t e, s = .ifS c t e) ∨ (∃ n i, s = .var n i) ∨ (∃ c b, s = .whileS c b)) := by
  refine ⟨rfl, rfl, ?_⟩
  intro s
  cases s with
  | print e => exact Or.inl ⟨e, rfl⟩
  | block ss => exact Or.inr (Or.inl ⟨ss, rfl⟩)
  | expression e => exact Or.inr (Or.inr (Or.inl ⟨e, rfl⟩))
  | ifS c t e => exact Or.inr (Or.inr (Or.inr (Or.inl ⟨c, t, e, rfl⟩)))
  | var n i => exact Or.inr (Or.inr (Or.inr (Or.inr (Or.inl ⟨n, i, rfl⟩))))
  | whileS c b => exact Or.inr (Or.inr (Or.inr (Or.inr (Or.inr ⟨c, b, rfl⟩))))

/-! ### C3: block scoping is balanced on every exit path -/

/-- An interpreter outcome leaves the environment stack at depth `n`
(vacuous on fuel exhaustion): the property holds on both the success and
the error path. -/
def EResult.envLen {α : Type} : EResult α → Nat → Prop
  | .ok _ s, n => s.env.length = n
  | .err _ s, n => s.env.length = n
  | .fuelOut, _ => True

lemma EResult.envLen_andThenE {α β : Type} {r : EResult α} {f : α → IState → EResult β}
    {n : Nat} (hr : r.envLen n) (hf : ∀ a s, s.env.length = n → (f a s).envLen n) :
    (r.andThenE f).envLen n := by
  cases r with
  | ok a s => exact hf a s hr
  | err e s => exact hr
  | fuelOut => trivial

lemma envDefine_length (env : List Scope) (n : Token) (v : Obj) (h : 1 ≤ env.length) :
    (envDefine env n v).length = env.length := by
  cases env with
  | nil => simp at h
  | cons hd tl => simp [envDefine]

lemma popEnvironment_length (env : List Scope) (h : 2 ≤ env.length) :
    (popEnvironment env).length = env.length - 1 := by
  simp only [popEnvironment, if_pos (by omega : 1 < env.length)]
  simp

/-- The conjunction of depth-preservation statements for all the mutually
recursive interpreter functions at a given fuel. -/
def PreserveAt (fuel : Nat) : Prop :=
  (∀ e s, 1 ≤ s.env.length → (evaluateE fuel e s).envLen s.env.length) ∧
  (∀ n v s, 1 ≤ s.env.length → (evalAssignment fuel n v s).envLen s.env.length) ∧
  (∀ l op r s, 1 ≤ s.env.length → (evalBinary fuel l op r s).envLen s.env.length) ∧
  (∀ l op r s, 1 ≤ s.env.length → (evalLogical fuel l op r s).envLen s.env.length) ∧
  (∀ op r s, 1 ≤ s.env.length → (evalUnary fuel op r s).envLen s.env.length) ∧
  (∀ stmt s, 1 ≤ s.env.length → (executeS fuel stmt s).envLen s.env.length) ∧
  (∀ stmts s, 1 ≤ s.env.length → (executeBlock fuel stmts s).envLen s.env.length) ∧
  (∀ stmts s, 2 ≤ s.env.length → (blockStmtsLoop fuel stmts s).envLen (s.env.length - 1)) ∧
  (∀ c b s, 1 ≤ s.env.length → (whileLoopI fuel c b s).envLen s.env.length)

lemma preserveAt : ∀ fuel, PreserveAt fuel := by
  intro fuel
  induction fuel using Nat.strong_induction_on with
  | _ fuel ih =>
  cases fuel with
  | zero =>
    refine ⟨fun e s _ => trivial, fun n v s _ => trivial, fun l op r s _ => trivial,
      fun l op r s _ => trivial, fun op r s _ => trivial, fun stmt s _ => trivial,
      fun stmts s _ => trivial, fun stmts s h => ?_, fun c b s _ => trivial⟩
    cases stmts with
    | nil =>
      simp only [blockStmtsLoop, EResult.envLen]
      exact popEnvironment_length s.env h
    | cons hd tl => trivial
  | succ f =>
    have IH := ih f (Nat.lt_succ_self f)
    obtain ⟨ihEval, ihAsg, ihBin, ihLog, ihUn, ihExec, ihBlk, ihLoop, ihWhile⟩ := IH
    -- evaluateE
    have heval : ∀ e s, 1 ≤ s.env.length →
        (evaluateE (f + 1) e s).envLen s.env.length := by
      intro e s h
      cases e with
      | literal lit => exact rfl
      | grouping inner => exact ihEval inner s h
      | unary op right => exact ihUn op right s h
      | binary l op r => exact ihBin l op r s h
      | var name =>
        simp only [evaluateE]
        cases envGet s.env name with
        | ok v => exact rfl
        | error er => exact rfl
      | assignment name value => exact ihAsg name value s h
      | logical l op r => exact ihLog l op r s h
      | call callee paren args => exact rfl
    -- evalAssignment
    have hasg : ∀ n v s, 1 ≤ s.env.length →
        (evalAssignment (f + 1) n v s).envLen s.env.length := by
      intro n v s h
      simp only [evalAssignment]
      refine EResult.envLen_andThenE (ihEval v s h) ?_
      intro a s1 h1
      cases hr : envAssign s1.env n a with
      | ok env' =>
        simp only [EResult.envLen]
        rw [envAssign_ok_length s1.env n a env' hr]
        exact h1
      | error er => exact h1
    -- evalBinary
    have hbin : ∀ l op r s, 1 ≤ s.env.length →
        (evalBinary (f + 1) l op r s).envLen s.env.length := by
      intro l op r s h
      simp only [evalBinary]
      refine EResult.envLen_andThenE (ihEval l s h) ?_
      intro lv s1 h1
      refine EResult.envLen_andThenE ?_ ?_
      · have := ihEval r s1 (by omega)
        rwa [h1] at this
      · intro rv s2 h2
        cases op.tokenType <;>
          first
            | exact h2
            | (cases checkNumberOperands op lv rv with
                | ok p => exact h2
                | error er => exact h2)
            | (cases lv <;> cases rv <;> exact h2)
    -- evalLogical
    have hlog : ∀ l op r s, 1 ≤ s.env.length →
        (evalLogical (f + 1) l op r s).envLen s.env.length := by
      intro l op r s h
      simp only [evalLogical]
      refine EResult.envLen_andThenE (ihEval l s h) ?_
      intro lv s1 h1
      by_cases hor : op.tokenType = TokenType.kwOr
      · simp only [if_pos hor]
        by_cases ht : isTruthy lv
        · simp only [if_pos ht]; exact h1
        · simp only [if_neg ht]
          have := ihEval r s1 (by omega)
          rwa [h1] at this
      · simp only [if_neg hor]
        by_cases ht : isTruthy lv
        · have hr2 := ihEval r s1 (by omega)
          rw [h1] at hr2
          simpa [ht] using hr2
        · simp only [Bool.not_eq_true] at ht
          simp only [ht, Bool.not_false, if_pos rfl]
          exact h1
    -- evalUnary
    have hun : ∀ op r s, 1 ≤ s.env.length →
        (evalUnary (f + 1) op r s).envLen s.env.length := by
      intro op r s h
      simp only [evalUnary]
      refine EResult.envLen_andThenE (ihEval r s h) ?_
      intro rv s1 h1
      cases op.tokenType <;>
        first
          | exact h1
          | (cases checkNumberOperand op rv with
              | ok p => exact h1
              | error er => exact h1)
    -- executeS
    have hexec : ∀ stmt s, 1 ≤ s.env.length →
        (executeS (f + 1) stmt s).envLen s.env.length := by
      intro stmt s h
      cases stmt with
      | print e =>
        simp only [executeS]
        exact EResult.envLen_andThenE (ihEval e s h) (fun a s1 h1 => h1)
      | expression e =>
        simp only [executeS]
        exact EResult.envLen_andThenE (ihEval e s h) (fun a s1 h1 => h1)
      | var name init =>
        simp only [executeS]
        refine EResult.envLen_andThenE ?_ ?_
        · cases init with
          | some e => exact ihEval e s h
          | none => exact rfl
        · intro a s1 h1
          simp only [EResult.envLen]
          rw [envDefine_length s1.env name a (by omega)]
          exact h1
      | block stmts => exact ihBlk stmts s h
      | ifS cond thenB elseB =>
        simp only [executeS]
        refine EResult.envLen_andThenE (ihEval cond s h) ?_
        intro cv s1 h1
        by_cases ht : isTruthy cv
        · simp only [if_pos ht]
          have := ihExec thenB s1 (by omega)
          rwa [h1] at this
        · simp only [if_neg ht]
          cases elseB with
          | some eb =>
            have := ihExec eb s1 (by omega)
            rwa [h1] at this
          | none => exact h1
      | whileS cond body => exact ihWhile cond body s h
    -- executeBlock at f + 1 needs the loop property at f, which is in IH
    have hblk : ∀ stmts s, 1 ≤ s.env.length →
        (executeBlock (f + 1) stmts s).envLen s.env.length := by
      intro stmts s h
      simp only [executeBlock]
      have := ihLoop stmts { s with env := pushEnvironment s.env }
        (by simp [pushEnvironment]; omega)
      simpa [pushEnvironment] using this
    -- blockStmtsLoop at f + 1 uses executeS at f (from IH) and itself at f
    have hloop : ∀ stmts s, 2 ≤ s.env.length →
        (blockStmtsLoop (f + 1) stmts s).envLen (s.env.length - 1) := by
      intro stmts s h
      cases stmts with
      | nil =>
        simp only [blockStmtsLoop, EResult.envLen]
        exact popEnvironment_length s.env h
      | cons hd tl =>
        simp only [blockStmtsLoop]
        have hhd := ihExec hd s (by omega)
        cases hr : executeS f hd s with
        | ok a s' =>
          rw [hr] at hhd
          simp only [EResult.envLen] at hhd
          have := ihLoop tl s' (by omega)
          rwa [hhd] at this
        | err e s' =>
          rw [hr] at hhd
          simp only [EResult.envLen] at hhd
          simp only [EResult.envLen]
          rw [popEnvironment_length s'.env (by omega), hhd]
        | fuelOut => trivial
    -- whileLoopI
    have hwhile : ∀ c b s, 1 ≤ s.env.length →
        (whileLoopI (f + 1) c b s).envLen s.env.length := by
      intro c b s h
      simp only [whileLoopI]
      refine EResult.envLen_andThenE (ihEval c s h) ?_
      intro cv s1 h1
      by_cases ht : isTruthy cv
      · simp only [ht]
        rw [if_neg (show ¬ ((! true) = true) by simp)]
        refine EResult.envLen_andThenE ?_ ?_
        · have := ihExec b s1 (by omega)
          rwa [h1] at this
        · intro a s2 h2
          have := ihWhile c b s2 (by omega)
          rwa [h2] at this
      · simp only [Bool.not_eq_true] at ht
        simp only [ht, Bool.not_false, if_pos rfl]
        exact h1
    exact ⟨heval, hasg, hbin, hlog, hun, hexec, hblk, hloop, hwhile⟩

/-- The program `var a = "g"; { var a = "inner"; }`. -/
def shadowProg : List Stmt :=
  [ .var (mkTok .identifier "a") (some (.literal (.string "g"))),
    .block [.var (mkTok .identifier "a") (some (.literal (.string "inner")))] ]

/-- **C3.** Executing a `Block` statement leaves the scope-stack depth
unchanged on every exit path — when every contained statement succeeds and
when one fails, in which case the scope is popped before the error is
returned (`envLen` holds for both the `ok` and the `err` outcome).
Consequently running `var a = "g"; { var a = "inner"; }` ends with the
global scope binding `a` to `"g"` and nothing else. -/
theorem C3_block_push_pop_balanced :
    (∀ (fuel : Nat) (stmts : List Stmt) (s : IState), 1 ≤ s.env.length →
      (executeS fuel (.block stmts) s).envLen s.env.length) ∧
    interpret 10 shadowProg = some (⟨[[("a", .string "g")]], []⟩, false) := by
  constructor
  · intro fuel stmts s h
    exact (preserveAt fuel).2.2.2.2.2.1 (.block stmts) s h
  · rfl

/-- Witness for C3: a concrete block whose single statement fails (an
undefined-variable assignment) still restores the scope-stack depth before
surfacing the error. -/
theorem C3_block_push_pop_balanced_witness :
    (executeS 5 (.block [.expression (.assignment (mkTok .identifier "x") (.literal .nil))])
      ⟨envNew, []⟩).envLen 1 := by
  have h := C3_block_push_pop_balanced.1 5
    [.expression (.assignment (mkTok .identifier "x") (.literal .nil))]
    ⟨envNew, []⟩ (by decide)
  simpa using h

/-! ### Scanner lemmas for C1 and C7 -/

namespace Scanner

/-- If a predicate holds on one character and fails on another, the two
characters differ; used to walk the `scan_token` dispatch chain with an
abstract alphabetic or numeric character. -/
lemma ne_of_pred {p : Char → Bool} {c : Char} (x : Char) (h : p c = true)
    (hx : p x = false) : ¬ c = x := by
  intro he
  rw [he, hx] at h
  cases h

lemma isDigit_toNat {c : Char} (h : c.isDigit = true) :
    48 ≤ c.toNat ∧ c.toNat ≤ 57 := by
  simp only [Char.isDigit, ge_iff_le, Bool.and_eq_true, decide_eq_true_eq] at h
  exact ⟨UInt32.le_toNat_of_le (by decide) h.1, UInt32.toNat_le_of_le (by decide) h.2⟩

lemma isAlpha_toNat {c : Char} (h : c.isAlpha = true) :
    (65 ≤ c.toNat ∧ c.toNat ≤ 90) ∨ (97 ≤ c.toNat ∧ c.toNat ≤ 122) := by
  simp only [Char.isAlpha, Char.isUpper, Char.isLower, ge_iff_le, Bool.or_eq_true,
    Bool.and_eq_true, decide_eq_true_eq] at h
  rcases h with ⟨h1, h2⟩ | ⟨h1, h2⟩
  · exact Or.inl ⟨UInt32.le_toNat_of_le (by decide) h1, UInt32.toNat_le_of_le (by decide) h2⟩
  · exact Or.inr ⟨UInt32.le_toNat_of_le (by decide) h1, UInt32.toNat_le_of_le (by decide) h2⟩

/-- An alphabetic character is not numeric (the ASCII ranges are disjoint). -/
lemma alpha_not_digit {c : Char} (h : rustIsAlphabetic c = true) :
    rustIsNumeric c = false := by
  cases hd : rustIsNumeric c
  · rfl
  · exfalso
    have h1 := isDigit_toNat hd
    have h2 := isAlpha_toNat h
    omega

lemma getD_of_drop {α : Type} (l : List α) (n : Nat) (c : α) (r : List α) (d : α)
    (h : l.drop n = c :: r) : l.getD n d = c := by
  induction n generalizing l with
  | zero =>
    simp only [List.drop_zero] at h
    simp [h]
  | succ n ih =>
    cases l with
    | nil => simp at h
    | cons hd tl =>
      simp only [List.drop_succ_cons] at h
      simpa using ih tl h

lemma drop_succ_of_drop {α : Type} (l : List α) (n : Nat) (c : α) (r : List α)
    (h : l.drop n = c :: r) : l.drop (n + 1) = r := by
  rw [← List.tail_drop, h]
  rfl

lemma lt_length_of_drop {α : Type} {l : List α} {n : Nat} {c : α} {r : List α}
    (h : l.drop n = c :: r) : n < l.length := by
  by_contra hle
  rw [List.drop_eq_nil_iff.2 (by omega)] at h
  cases h

lemma peek_of_drop {st : ScanState} {c : Char} {r : List Char}
    (h : st.source.drop st.current = c :: r) : peek st = c := by
  have hlt := lt_length_of_drop h
  simp only [peek, isAtEnd, charAt]
  rw [if_neg (by simp; omega)]
  exact getD_of_drop _ _ _ _ _ h

/-- The `while p(peek)` loop consumes exactly a maximal run of characters
satisfying `p`. -/
lemma advanceWhile_spec (p : Char → Bool) :
    ∀ (ds rest : List Char) (st : ScanState) (fuel : Nat),
      st.source.drop st.current = ds ++ rest →
      (∀ c ∈ ds, p c = true) →
      (∀ c, rest.head? = some c → p c = false) →
      ds.length ≤ fuel →
      advanceWhile fuel p st = { st with current := st.current + ds.length } := by
  intro ds
  induction ds with
  | nil =>
    intro rest st fuel h hds hr hfuel
    have hguard : ¬ (st.current < st.source.length ∧ p (peek st) = true) := by
      cases rest with
      | nil =>
        simp only [List.nil_append] at h
        intro hg
        have := List.drop_eq_nil_iff.1 h
        omega
      | cons c r =>
        simp only [List.nil_append] at h
        intro hg
        rw [peek_of_drop h, hr c rfl] at hg
        cases hg.2
    cases fuel with
    | zero => rfl
    | succ f =>
      simp only [advanceWhile]
      rw [if_neg (by exact_mod_cast hguard)]
      rfl
  | cons d ds ih =>
    intro rest st fuel h hds hr hfuel
    cases fuel with
    | zero => simp at hfuel
    | succ f =>
      have hdrop : st.source.drop st.current = d :: (ds ++ rest) := by simpa using h
      have hlt := lt_length_of_drop hdrop
      have hpk := peek_of_drop hdrop
      simp only [advanceWhile]
      rw [if_pos (by exact ⟨hlt, by rw [hpk]; exact hds d (by simp)⟩)]
      have hdrop' : ((advance st).2).source.drop ((advance st).2).current = ds ++ rest := by
        simp only [advance]
        exact drop_succ_of_drop _ _ _ _ hdrop
      have := ih rest (advance st).2 f hdrop'
        (fun c hc => hds c (by simp [hc])) hr (by simpa using hfuel)
      rw [this]
      simp only [advance]
      congr 1
      simp only [List.length_cons]
      omega

lemma peekNext_atEnd {st : ScanState} (h : st.source.length ≤ st.current + 1) :
    peekNext st = '\x00' := by
  simp only [peekNext]
  rw [if_pos h]

lemma peekNext_of_drop {st : ScanState} {c : Char} {r : List Char}
    (h : st.source.drop (st.current + 1) = c :: r) : peekNext st = c := by
  have hlt := lt_length_of_drop h
  simp only [peekNext, charAt]
  rw [if_neg (by omega)]
  exact getD_of_drop _ _ _ _ _ h

/-- The scan loop is inert once the cursor is at the end of input. -/
lemma scanLoop_atEnd (fuel : Nat) (st : ScanState)
    (h : st.source.length ≤ st.current) : scanLoop fuel st = st := by
  cases fuel with
  | zero => rfl
  | succ f =>
    simp only [scanLoop]
    rw [if_neg (by omega)]

/-- The reserved-word table of `identifier`. -/
def reservedWords : List String :=
  ["and", "class", "else", "false", "for", "fun", "if", "nil", "or", "print",
   "return", "super", "this", "true", "var", "while"]

end Scanner

/-- **C1 counterexample.** Scanning `"_x"` does NOT yield an `Identifier`
token for `"_x"`: Rust's `char::is_alphabetic('_')` is `false`, so the
underscore takes the scanner's fall-through branch, an
"Unexpected character." error is reported on line 1, and the only
identifier token produced is for `"x"`. -/
theorem C1_counterexample_underscore :
    Scanner.scanTokens "_x".toList =
      [⟨.identifier, "x", none, 1⟩, ⟨.eof, "", none, 1⟩] ∧
    (Scanner.scanFinal "_x".toList).errors = [(1, "Unexpected character.")] := by
  constructor <;> rfl

/-- `scan_token` at the start of an identifier that runs to the end of the
input: it consumes the whole alphanumeric tail and emits one token, whose
type is `Identifier` when the text is not reserved. -/
lemma scanToken_identifier (c : Char) (rest : List Char) (hc : rustIsAlphabetic c = true)
    (hrest : ∀ x ∈ rest, rustIsAlphanumeric x = true)
    (hres : String.mk (c :: rest) ∉ Scanner.reservedWords) :
    Scanner.scanToken { source := c :: rest, tokens := [], errors := [], start := 0, current := 0, line := 1 } =
      { source := c :: rest, tokens := [⟨.identifier, String.mk (c :: rest), none, 1⟩],
        errors := [], start := 0, current := rest.length + 1, line := 1 } := by
  simp only [Scanner.scanToken, Scanner.advance, Scanner.charAt, List.getD_cons_zero]
  rw [if_neg (Scanner.ne_of_pred '(' hc (by decide)),
      if_neg (Scanner.ne_of_pred ')' hc (by decide)),
      if_neg (Scanner.ne_of_pred '{' hc (by decide)),
      if_neg (Scanner.ne_of_pred '}' hc (by decide)),
      if_neg (Scanner.ne_of_pred ',' hc (by decide)),
      if_neg (Scanner.ne_of_pred '.' hc (by decide)),
      if_neg (Scanner.ne_of_pred '-' hc (by decide)),
      if_neg (Scanner.ne_of_pred '+' hc (by decide)),
      if_neg (Scanner.ne_of_pred ';' hc (by decide)),
      if_neg (Scanner.ne_of_pred '*' hc (by decide)),
      if_neg (Scanner.ne_of_pred '!' hc (by decide)),
      if_neg (Scanner.ne_of_pred '=' hc (by decide)),
      if_neg (Scanner.ne_of_pred '<' hc (by decide)),
      if_neg (Scanner.ne_of_pred '>' hc (by decide)),
      if_neg (Scanner.ne_of_pred '/' hc (by decide))]
  rw [if_neg (show ¬ (c = ' ' ∨ c = '\r' ∨ c = '\t') from by
        rintro (h | h | h)
        · exact Scanner.ne_of_pred ' ' hc (by decide) h
        · exact Scanner.ne_of_pred '\r' hc (by decide) h
        · exact Scanner.ne_of_pred '\t' hc (by decide) h)]
  rw [if_neg (Scanner.ne_of_pred '\n' hc (by decide)),
      if_neg (Scanner.ne_of_pred '"' hc (by decide))]
  rw [if_neg (show ¬ rustIsNumeric c = true from by rw [Scanner.alpha_not_digit hc]; simp),
      if_pos hc]
  unfold Scanner.identifierTok
  rw [Scanner.advanceWhile_spec rustIsAlphanumeric rest [] _ _ (by simp) hrest (by simp) (by simp)]
  have hlex : ∀ cur : Nat, cur = rest.length + 1 →
      Scanner.lexemeChars
        { source := c :: rest, tokens := [], errors := [], start := 0,
          current := cur, line := 1 } = c :: rest := by
    intro cur hcur
    simp only [Scanner.lexemeChars, List.drop_zero, Nat.sub_zero]
    rw [show cur = (c :: rest).length from by simp [hcur]]
    exact List.take_length _
  simp only []
  simp only [hlex (0 + 1 + rest.length) (by omega)]
  simp only [Scanner.reservedWords, List.mem_cons, List.mem_singleton, not_or] at hres
  obtain ⟨h1, h2, h3, h4, h5, h6, h7, h8, h9, h10, h11, h12, h13, h14, h15, h16, -⟩ := hres
  rw [if_neg h1, if_neg h2, if_neg h3, if_neg h4, if_neg h5, if_neg h6, if_neg h7,
      if_neg h8, if_neg h9, if_neg h10, if_neg h11, if_neg h12, if_neg h13, if_neg h14,
      if_neg h15, if_neg h16]
  simp only [Scanner.addToken, Scanner.addLiteralToken]
  simp [hlex (0 + 1 + rest.length) (by omega), hlex (rest.length + 1) rfl, Nat.add_comm]

/-- **C1 (amended).** For every source string consisting of an alphabetic
character followed by alphanumeric characters whose text is not a reserved
word, the scanner emits exactly one `Identifier` token whose lexeme is that
text, followed by the end-of-input token, and reports no error.  (Contrary
to the original claim, a leading underscore is NOT an identifier start:
Rust's `char::is_alphabetic` rejects `'_'`, so `"_x"` reports an
"unexpected character" error — see the counterexample.) -/
theorem C1_alpha_identifier (c : Char) (rest : List Char)
    (hc : rustIsAlphabetic c = true)
    (hrest : ∀ x ∈ rest, rustIsAlphanumeric x = true)
    (hres : String.mk (c :: rest) ∉ Scanner.reservedWords) :
    Scanner.scanTokens (c :: rest) =
      [⟨.identifier, String.mk (c :: rest), none, 1⟩, ⟨.eof, "", none, 1⟩] ∧
    (Scanner.scanFinal (c :: rest)).errors = [] := by
  have hstep : Scanner.scanFinal (c :: rest) =
      { source := c :: rest,
        tokens := [⟨.identifier, String.mk (c :: rest), none, 1⟩],
        errors := [], start := 0, current := rest.length + 1, line := 1 } := by
    have h1 : Scanner.scanFinal (c :: rest) =
        Scanner.scanLoop rest.length (Scanner.scanToken
          { source := c :: rest, tokens := [], errors := [], start := 0, current := 0,
            line := 1 }) := by
      unfold Scanner.scanFinal Scanner.initState
      rw [show (c :: rest).length = rest.length + 1 from by simp]
      simp only [Scanner.scanLoop]
      rw [if_pos (by simp)]
    rw [h1, scanToken_identifier c rest hc hrest hres]
    exact Scanner.scanLoop_atEnd _ _ (by simp)
  constructor
  · unfold Scanner.scanTokens
    rw [hstep]
    rfl
  · rw [hstep]

/-- Witness for C1 (amended) at a concrete input: scanning `"ab"` yields a
single identifier token for `"ab"` and no error. -/
theorem C1_alpha_identifier_witness :
    Scanner.scanTokens "ab".toList =
      [⟨.identifier, String.mk ['a', 'b'], none, 1⟩, ⟨.eof, "", none, 1⟩] ∧
    (Scanner.scanFinal "ab".toList).errors = [] :=
  C1_alpha_identifier 'a' ['b'] (by decide) (by decide) (by decide)

end LoxTree


namespace LoxTree

lemma scanToken_number_trailing_dot (d : Char) (ds : List Char)
    (hd : rustIsNumeric d = true) (hds : ∀ x ∈ ds, rustIsNumeric x = true) :
    Scanner.scanToken
      { source := (d :: ds) ++ ['.'], tokens := [], errors := [],
        start := 0, current := 0, line := 1 } =
      { source := (d :: ds) ++ ['.'],
        tokens := [⟨.number, String.mk (d :: ds),
          some (.number (Scanner.parseF64 (d :: ds))), 1⟩],
        errors := [], start := 0, current := ds.length + 1, line := 1 } := by
  simp only [Scanner.scanToken, Scanner.advance, Scanner.charAt, List.cons_append,
    List.getD_cons_zero]
  rw [if_neg (Scanner.ne_of_pred '(' hd (by decide)),
      if_neg (Scanner.ne_of_pred ')' hd (by decide)),
      if_neg (Scanner.ne_of_pred '{' hd (by decide)),
      if_neg (Scanner.ne_of_pred '}' hd (by decide)),
      if_neg (Scanner.ne_of_pred ',' hd (by decide)),
      if_neg (Scanner.ne_of_pred '.' hd (by decide)),
      if_neg (Scanner.ne_of_pred '-' hd (by decide)),
      if_neg (Scanner.ne_of_pred '+' hd (by decide)),
      if_neg (Scanner.ne_of_pred ';' hd (by decide)),
      if_neg (Scanner.ne_of_pred '*' hd (by decide)),
      if_neg (Scanner.ne_of_pred '!' hd (by decide)),
      if_neg (Scanner.ne_of_pred '=' hd (by decide)),
      if_neg (Scanner.ne_of_pred '<' hd (by decide)),
      if_neg (Scanner.ne_of_pred '>' hd (by decide)),
      if_neg (Scanner.ne_of_pred '/' hd (by decide))]
  rw [if_neg (show ¬ (d = ' ' ∨ d = '\r' ∨ d = '\t') from by
        rintro (h | h | h)
        · exact Scanner.ne_of_pred ' ' hd (by decide) h
        · exact Scanner.ne_of_pred '\r' hd (by decide) h
        · exact Scanner.ne_of_pred '\t' hd (by decide) h)]
  rw [if_neg (Scanner.ne_of_pred '\n' hd (by decide)),
      if_neg (Scanner.ne_of_pred '"' hd (by decide)),
      if_pos hd]
  unfold Scanner.numberTok
  rw [Scanner.advanceWhile_spec rustIsNumeric ds ['.'] _ _
    (by simp) hds (by intro c hc; simp at hc; rw [← hc]; decide) (by simp; omega)]
  simp only []
  have harith : 0 + 1 + ds.length = ds.length + 1 := by omega
  rw [harith]
  have hdrop : (d :: (ds ++ ['.'])).drop (ds.length + 1) = '.' :: [] := by
    simp [List.drop_succ_cons, List.drop_left]
  have hnext : Scanner.peekNext
      { source := d :: (ds ++ ['.']), tokens := [], errors := [], start := 0,
        current := ds.length + 1, line := 1 } = '\x00' :=
    Scanner.peekNext_atEnd (by simp)
  rw [if_neg (by
    rintro ⟨-, h2⟩
    rw [hnext] at h2
    exact absurd h2 (by decide))]
  simp only [Scanner.addLiteralToken]
  have hlex : Scanner.lexemeChars
      { source := d :: (ds ++ ['.']), tokens := [], errors := [], start := 0,
        current := ds.length + 1, line := 1 } = d :: ds := by
    simp only [Scanner.lexemeChars, List.drop_zero, Nat.sub_zero, List.take_succ_cons]
    rw [List.take_left]
  rw [hlex]
  simp

end LoxTree

namespace LoxTree

lemma scanToken_number_fraction (d : Char) (ds : List Char) (e : Char) (es : List Char)
    (hd : rustIsNumeric d = true) (hds : ∀ x ∈ ds, rustIsNumeric x = true)
    (he : rustIsNumeric e = true) (hes : ∀ x ∈ es, rustIsNumeric x = true) :
    Scanner.scanToken
      { source := (d :: ds) ++ '.' :: e :: es, tokens := [], errors := [],
        start := 0, current := 0, line := 1 } =
      { source := (d :: ds) ++ '.' :: e :: es,
        tokens := [⟨.number, String.mk ((d :: ds) ++ '.' :: e :: es),
          some (.number (Scanner.parseF64 ((d :: ds) ++ '.' :: e :: es))), 1⟩],
        errors := [], start := 0,
        current := ds.length + es.length + 3, line := 1 } := by
  simp only [Scanner.scanToken, Scanner.advance, Scanner.charAt, List.cons_append,
    List.getD_cons_zero]
  rw [if_neg (Scanner.ne_of_pred '(' hd (by decide)),
      if_neg (Scanner.ne_of_pred ')' hd (by decide)),
      if_neg (Scanner.ne_of_pred '{' hd (by decide)),
      if_neg (Scanner.ne_of_pred '}' hd (by decide)),
      if_neg (Scanner.ne_of_pred ',' hd (by decide)),
      if_neg (Scanner.ne_of_pred '.' hd (by decide)),
      if_neg (Scanner.ne_of_pred '-' hd (by decide)),
      if_neg (Scanner.ne_of_pred '+' hd (by decide)),
      if_neg (Scanner.ne_of_pred ';' hd (by decide)),
      if_neg (Scanner.ne_of_pred '*' hd (by decide)),
      if_neg (Scanner.ne_of_pred '!' hd (by decide)),
      if_neg (Scanner.ne_of_pred '=' hd (by decide)),
      if_neg (Scanner.ne_of_pred '<' hd (by decide)),
      if_neg (Scanner.ne_of_pred '>' hd (by decide)),
      if_neg (Scanner.ne_of_pred '/' hd (by decide))]
  rw [if_neg (show ¬ (d = ' ' ∨ d = '\r' ∨ d = '\t') from by
        rintro (h | h | h)
        · exact Scanner.ne_of_pred ' ' hd (by decide) h
        · exact Scanner.ne_of_pred '\r' hd (by decide) h
        · exact Scanner.ne_of_pred '\t' hd (by decide) h)]
  rw [if_neg (Scanner.ne_of_pred '\n' hd (by decide)),
      if_neg (Scanner.ne_of_pred '"' hd (by decide)),
      if_pos hd]
  unfold Scanner.numberTok
  rw [Scanner.advanceWhile_spec rustIsNumeric ds ('.' :: e :: es) _ _
    (by simp) hds (by intro c hc; simp at hc; rw [← hc]; decide) (by simp; omega)]
  simp only []
  have harith : 0 + 1 + ds.length = ds.length + 1 := by omega
  rw [harith]
  have hdrop : (d :: (ds ++ '.' :: e :: es)).drop (ds.length + 1) = '.' :: e :: es := by
    simp [List.drop_succ_cons, List.drop_left]
  have hdrop2 : (d :: (ds ++ '.' :: e :: es)).drop (ds.length + 1 + 1) = e :: es := by
    rw [← List.tail_drop, hdrop]
    rfl
  have hpk : Scanner.peek
      { source := d :: (ds ++ '.' :: e :: es), tokens := [], errors := [], start := 0,
        current := ds.length + 1, line := 1 } = '.' := Scanner.peek_of_drop hdrop
  have hnx : Scanner.peekNext
      { source := d :: (ds ++ '.' :: e :: es), tokens := [], errors := [], start := 0,
        current := ds.length + 1, line := 1 } = e := Scanner.peekNext_of_drop hdrop2
  rw [if_pos (by exact ⟨hpk, by rw [hnx]; exact he⟩)]
  simp only [Scanner.advance, Scanner.charAt]
  rw [Scanner.advanceWhile_spec rustIsNumeric (e :: es) [] _ _
    (by simpa using hdrop2)
    (by
      intro x hx
      simp at hx
      rcases hx with hx | hx
      · rw [hx]; exact he
      · exact hes x hx)
    (by simp)
    (by simp; omega)]
  simp only [Scanner.addLiteralToken]
  have hlex : Scanner.lexemeChars
      { source := d :: (ds ++ '.' :: e :: es), tokens := [], errors := [], start := 0,
        current := ds.length + 1 + 1 + (e :: es).length, line := 1 } =
      d :: (ds ++ '.' :: e :: es) := by
    simp only [Scanner.lexemeChars, List.drop_zero, Nat.sub_zero]
    rw [show ds.length + 1 + 1 + (e :: es).length = (d :: (ds ++ '.' :: e :: es)).length from by
      simp; omega]
    exact List.take_length _
  rw [hlex]
  simp
  omega

end LoxTree

namespace LoxTree

lemma scanToken_dot (src : List Char) (p : Nat) (tks : List Token)
    (hdrop : src.drop p = ['.']) :
    Scanner.scanToken
      { source := src, tokens := tks, errors := [], start := p, current := p, line := 1 } =
      { source := src, tokens := tks ++ [⟨.dot, ".", none, 1⟩], errors := [],
        start := p, current := p + 1, line := 1 } := by
  simp only [Scanner.scanToken, Scanner.advance, Scanner.charAt]
  rw [Scanner.getD_of_drop _ _ _ _ _ hdrop]
  rw [if_neg (by decide), if_neg (by decide), if_neg (by decide), if_neg (by decide),
      if_neg (by decide), if_pos rfl]
  simp only [Scanner.addToken, Scanner.addLiteralToken]
  have hlex : Scanner.lexemeChars
      { source := src, tokens := tks, errors := [], start := p, current := p + 1,
        line := 1 } = ['.'] := by
    simp only [Scanner.lexemeChars, Nat.add_sub_cancel_left]
    rw [hdrop]
    rfl
  rw [hlex]

lemma scan_digits_trailing_dot (d : Char) (ds : List Char)
    (hd : rustIsNumeric d = true) (hds : ∀ x ∈ ds, rustIsNumeric x = true) :
    Scanner.scanTokens ((d :: ds) ++ ['.']) =
      [⟨.number, String.mk (d :: ds), some (.number (Scanner.parseF64 (d :: ds))), 1⟩,
       ⟨.dot, ".", none, 1⟩, ⟨.eof, "", none, 1⟩] ∧
    (Scanner.scanFinal ((d :: ds) ++ ['.'])).errors = [] := by
  have hlen : ((d :: ds) ++ ['.']).length = ds.length + 2 := by simp
  have hstep : Scanner.scanFinal ((d :: ds) ++ ['.']) =
      { source := (d :: ds) ++ ['.'],
        tokens := [⟨.number, String.mk (d :: ds),
            some (.number (Scanner.parseF64 (d :: ds))), 1⟩,
          ⟨.dot, ".", none, 1⟩],
        errors := [], start := ds.length + 1, current := ds.length + 2, line := 1 } := by
    have h1 : Scanner.scanFinal ((d :: ds) ++ ['.']) =
        Scanner.scanLoop (ds.length + 1) (Scanner.scanToken
          { source := (d :: ds) ++ ['.'], tokens := [], errors := [], start := 0,
            current := 0, line := 1 }) := by
      unfold Scanner.scanFinal Scanner.initState
      rw [hlen]
      simp only [Scanner.scanLoop]
      rw [if_pos (by simp)]
    rw [h1, scanToken_number_trailing_dot d ds hd hds]
    have h2 : Scanner.scanLoop (ds.length + 1)
        { source := (d :: ds) ++ ['.'],
          tokens := [⟨.number, String.mk (d :: ds),
            some (.number (Scanner.parseF64 (d :: ds))), 1⟩],
          errors := [], start := 0, current := ds.length + 1, line := 1 } =
        Scanner.scanLoop ds.length (Scanner.scanToken
          { source := (d :: ds) ++ ['.'],
            tokens := [⟨.number, String.mk (d :: ds),
              some (.number (Scanner.parseF64 (d :: ds))), 1⟩],
            errors := [], start := ds.length + 1, current := ds.length + 1, line := 1 }) := by
      simp only [Scanner.scanLoop]
      rw [if_pos (by simp only [List.length_append, List.length_cons]; omega)]
    rw [h2, scanToken_dot ((d :: ds) ++ ['.']) (ds.length + 1)
      [⟨.number, String.mk (d :: ds), some (.number (Scanner.parseF64 (d :: ds))), 1⟩]
      (by simp [List.drop_succ_cons, List.drop_left])]
    exact Scanner.scanLoop_atEnd _ _ (by simp)
  constructor
  · unfold Scanner.scanTokens
    rw [hstep]
    rfl
  · rw [hstep]

lemma scan_digits_fraction (d : Char) (ds : List Char) (e : Char) (es : List Char)
    (hd : rustIsNumeric d = true) (hds : ∀ x ∈ ds, rustIsNumeric x = true)
    (he : rustIsNumeric e = true) (hes : ∀ x ∈ es, rustIsNumeric x = true) :
    Scanner.scanTokens ((d :: ds) ++ '.' :: e :: es) =
      [⟨.number, String.mk ((d :: ds) ++ '.' :: e :: es),
        some (.number (Scanner.parseF64 ((d :: ds) ++ '.' :: e :: es))), 1⟩,
       ⟨.eof, "", none, 1⟩] ∧
    (Scanner.scanFinal ((d :: ds) ++ '.' :: e :: es)).errors = [] := by
  have hlen : ((d :: ds) ++ '.' :: e :: es).length = ds.length + es.length + 3 := by
    simp
    omega
  have hstep : Scanner.scanFinal ((d :: ds) ++ '.' :: e :: es) =
      { source := (d :: ds) ++ '.' :: e :: es,
        tokens := [⟨.number, String.mk ((d :: ds) ++ '.' :: e :: es),
          some (.number (Scanner.parseF64 ((d :: ds) ++ '.' :: e :: es))), 1⟩],
        errors := [], start := 0, current := ds.length + es.length + 3, line := 1 } := by
    have h1 : Scanner.scanFinal ((d :: ds) ++ '.' :: e :: es) =
        Scanner.scanLoop (ds.length + es.length + 2) (Scanner.scanToken
          { source := (d :: ds) ++ '.' :: e :: es, tokens := [], errors := [], start := 0,
            current := 0, line := 1 }) := by
      unfold Scanner.scanFinal Scanner.initState
      rw [hlen]
      simp only [Scanner.scanLoop]
      rw [if_pos (by simp)]
    rw [h1, scanToken_number_fraction d ds e es hd hds he hes]
    exact Scanner.scanLoop_atEnd _ _ (by
      simp only [List.length_append, List.length_cons]
      omega)
  constructor
  · unfold Scanner.scanTokens
    rw [hstep]
    rfl
  · rw [hstep]

end LoxTree

namespace LoxTree

theorem C7_number_ends_before_dot :
    (∀ (d : Char) (ds : List Char), rustIsNumeric d = true →
      (∀ x ∈ ds, rustIsNumeric x = true) →
      Scanner.scanTokens ((d :: ds) ++ ['.']) =
        [⟨.number, String.mk (d :: ds), some (.number (Scanner.parseF64 (d :: ds))), 1⟩,
         ⟨.dot, ".", none, 1⟩, ⟨.eof, "", none, 1⟩] ∧
      (Scanner.scanFinal ((d :: ds) ++ ['.'])).errors = []) ∧
    (∀ (d : Char) (ds : List Char) (e : Char) (es : List Char),
      rustIsNumeric d = true → (∀ x ∈ ds, rustIsNumeric x = true) →
      rustIsNumeric e = true → (∀ x ∈ es, rustIsNumeric x = true) →
      Scanner.scanTokens ((d :: ds) ++ '.' :: e :: es) =
        [⟨.number, String.mk ((d :: ds) ++ '.' :: e :: es),
          some (.number (Scanner.parseF64 ((d :: ds) ++ '.' :: e :: es))), 1⟩,
         ⟨.eof, "", none, 1⟩] ∧
      (Scanner.scanFinal ((d :: ds) ++ '.' :: e :: es)).errors = []) ∧
    Scanner.scanTokens "123.".toList =
      [⟨.number, "123", some (.number 123), 1⟩, ⟨.dot, ".", none, 1⟩,
       ⟨.eof, "", none, 1⟩] := by
  refine ⟨fun d ds hd hds => scan_digits_trailing_dot d ds hd hds,
          fun d ds e es hd hds he hes => scan_digits_fraction d ds e es hd hds he hes, ?_⟩
  have h := (scan_digits_trailing_dot '1' ['2', '3'] (by decide) (by decide)).1
  have hv : Scanner.parseF64 ['1', '2', '3'] = 123 := by
    simp [Scanner.parseF64, Scanner.digitsVal]
  rw [show "123.".toList = ('1' :: ['2', '3']) ++ ['.'] from rfl, h, hv]

theorem C7_number_ends_before_dot_witness :
    Scanner.scanTokens "4.".toList =
      [⟨.number, String.mk ['4'], some (.number (Scanner.parseF64 ['4'])), 1⟩,
       ⟨.dot, ".", none, 1⟩, ⟨.eof, "", none, 1⟩] ∧
    Scanner.scanTokens "1.5".toList =
      [⟨.number, String.mk ['1', '.', '5'],
        some (.number (Scanner.parseF64 ['1', '.', '5'])), 1⟩,
       ⟨.eof, "", none, 1⟩] := by
  constructor
  · exact (C7_number_ends_before_dot.1 '4' [] (by decide) (by decide)).1
  · exact (C7_number_ends_before_dot.2.1 '1' [] '5' [] (by decide) (by decide)
      (by decide) (by decide)).1

end LoxTree

namespace LoxTree

/-! ### C10: the parser never panics on scanner-produced token sequences -/

/-- Every `Number` or `String` token carries a literal payload — the
precondition under which `primary`'s `unwrap` is safe. -/
def tokensOk (l : List Token) : Prop :=
  ∀ t ∈ l, (t.tokenType = .number ∨ t.tokenType = .stringLit) → t.literal.isSome = true

instance (l : List Token) : Decidable (tokensOk l) := by
  unfold tokensOk
  infer_instance

/-- A parser outcome is safe for token vector `T`: it did not panic, and
the token vector is untouched (the parser only moves the cursor and
records diagnostics). -/
def SafeR {α : Type} (T : List Token) : PResult α → Prop
  | .ok _ st => st.tokens = T
  | .perr st => st.tokens = T
  | .panicked => False
  | .fuelOut => True

lemma SafeR.andThen {α β : Type} {T : List Token} {r : PResult α}
    {f : α → PState → PResult β} (hr : SafeR T r)
    (hf : ∀ a st, st.tokens = T → SafeR T (f a st)) : SafeR T (r.andThen f) := by
  cases r with
  | ok a st => exact hf a st hr
  | perr st => exact hr
  | panicked => exact hr.elim
  | fuelOut => trivial

namespace Parser

lemma advanceT_tokens (st : PState) : ((advanceT st).2).tokens = st.tokens := by
  unfold advanceT
  split <;> rfl

lemma matchT_tokens (st : PState) (tts : List TokenType) :
    ((matchT st tts).2).tokens = st.tokens := by
  induction tts with
  | nil => rfl
  | cons a rest ih =>
    unfold matchT
    split
    · exact advanceT_tokens st
    · exact ih

lemma reportErrAt_tokens (st : PState) (tok : Token) (msg : String) :
    (reportErrAt st tok msg).tokens = st.tokens := rfl

lemma consumeT_safe {T : List Token} (st : PState) (tt : TokenType) (msg : String)
    (h : st.tokens = T) : SafeR T (consumeT st tt msg) := by
  unfold consumeT
  split
  · show ((advanceT st).2).tokens = T
    rw [advanceT_tokens]
    exact h
  · exact h

lemma syncLoop_tokens (fuel : Nat) : ∀ st : PState, (syncLoop fuel st).tokens = st.tokens := by
  induction fuel with
  | zero => intro st; rfl
  | succ f ih =>
    intro st
    unfold syncLoop
    split
    · rfl
    · split
      · rfl
      · split
        · rfl
        · rw [ih, advanceT_tokens]

lemma synchronize_tokens (st : PState) : (synchronize st).tokens = st.tokens := by
  unfold synchronize
  rw [syncLoop_tokens, advanceT_tokens]

lemma isAtEndT_false_of_checkT {st : PState} {tt : TokenType} (h : checkT st tt = true) :
    isAtEndT st = false := by
  unfold checkT at h
  split at h
  · cases h
  · simpa using ‹¬ isAtEndT st = true›

lemma peekT_mem_of_checkT {st : PState} {tt : TokenType} (h : checkT st tt = true) :
    peekT st ∈ st.tokens ∧ (peekT st).tokenType = tt := by
  have hend := isAtEndT_false_of_checkT h
  unfold checkT at h
  rw [if_neg (by simp [hend])] at h
  simp only [decide_eq_true_eq] at h
  refine ⟨?_, h⟩
  unfold isAtEndT at hend
  by_cases hlt : st.current < st.tokens.length
  · unfold peekT
    rw [List.getD_eq_getElem _ _ hlt]
    exact List.getElem_mem hlt
  · exfalso
    unfold peekT at hend
    rw [List.getD_eq_default _ _ (by omega)] at hend
    simp [defaultToken] at hend

lemma previousT_advanceT {st : PState} (h : isAtEndT st = false) :
    previousT (advanceT st).2 = peekT st := by
  unfold advanceT previousT peekT
  rw [if_neg (by simp [h])]
  simp

lemma matchT_true {st : PState} {tts : List TokenType}
    (h : (matchT st tts).1 = true) :
    ∃ tt ∈ tts, checkT st tt = true ∧ (matchT st tts).2 = (advanceT st).2 := by
  induction tts with
  | nil => simp [matchT] at h
  | cons a rest ih =>
    by_cases hc : checkT st a = true
    · exact ⟨a, by simp, hc, by simp [matchT, hc]⟩
    · rw [show matchT st (a :: rest) = matchT st rest from by
        conv_lhs => rw [matchT]
        rw [if_neg hc]] at h ⊢
      obtain ⟨tt, htt, hck, heq⟩ := ih h
      exact ⟨tt, by simp [htt], hck, heq⟩

end Parser

open Parser in
/-- Under the payload precondition, the token matched by the
`Number`/`String` arm of `primary` carries a literal payload, so the
`unwrap` cannot fail. -/
lemma primary_lit_some {T : List Token} (hT : tokensOk T) (st3 : PState)
    (h3 : st3.tokens = T) (hm : (Parser.matchT st3 [.number, .stringLit]).1 = true) :
    ((Parser.previousT (Parser.matchT st3 [.number, .stringLit]).2).literal).isSome = true := by
  obtain ⟨tt, htt, hck, heq⟩ := Parser.matchT_true hm
  have hprev : Parser.previousT (Parser.matchT st3 [.number, .stringLit]).2 =
      Parser.peekT st3 := by
    rw [heq]
    exact Parser.previousT_advanceT (Parser.isAtEndT_false_of_checkT hck)
  rw [hprev]
  have hmem := Parser.peekT_mem_of_checkT hck
  apply hT _ (h3 ▸ hmem.1)
  rw [hmem.2]
  simpa using htt

open Parser in
/-- The panic-freedom and token-preservation facts for every parser
function, at a given fuel. -/
structure ParserSafe (T : List Token) (fuel : Nat) : Prop where
  expr : ∀ st, st.tokens = T → SafeR T (expressionP fuel st)
  asg : ∀ st, st.tokens = T → SafeR T (assignmentP fuel st)
  orE : ∀ st, st.tokens = T → SafeR T (orP fuel st)
  orL : ∀ e st, st.tokens = T → SafeR T (orLoop fuel e st)
  andE : ∀ st, st.tokens = T → SafeR T (andP fuel st)
  andL : ∀ e st, st.tokens = T → SafeR T (andLoop fuel e st)
  eq : ∀ st, st.tokens = T → SafeR T (equalityP fuel st)
  eqL : ∀ e st, st.tokens = T → SafeR T (equalityLoop fuel e st)
  cmp : ∀ st, st.tokens = T → SafeR T (comparisonP fuel st)
  cmpL : ∀ e st, st.tokens = T → SafeR T (comparisonLoop fuel e st)
  term : ∀ st, st.tokens = T → SafeR T (termP fuel st)
  termL : ∀ e st, st.tokens = T → SafeR T (termLoop fuel e st)
  factor : ∀ st, st.tokens = T → SafeR T (factorP fuel st)
  factorL : ∀ e st, st.tokens = T → SafeR T (factorLoop fuel e st)
  unary : ∀ st, st.tokens = T → SafeR T (unaryP fuel st)
  callE : ∀ st, st.tokens = T → SafeR T (callP fuel st)
  callL : ∀ e st, st.tokens = T → SafeR T (callLoop fuel e st)
  finish : ∀ e st, st.tokens = T → SafeR T (finishCall fuel e st)
  args : ∀ acc st, st.tokens = T → SafeR T (argsLoop fuel acc st)
  prim : ∀ st, st.tokens = T → SafeR T (primaryP fuel st)
  decl : ∀ st, st.tokens = T → SafeR T (declarationP fuel st)
  stmt : ∀ st, st.tokens = T → SafeR T (statementP fuel st)
  forS : ∀ st, st.tokens = T → SafeR T (forStatementP fuel st)
  ifS : ∀ st, st.tokens = T → SafeR T (ifStatementP fuel st)
  varD : ∀ st, st.tokens = T → SafeR T (varDeclarationP fuel st)
  whileS : ∀ st, st.tokens = T → SafeR T (whileStatementP fuel st)
  printS : ∀ st, st.tokens = T → SafeR T (printStatementP fuel st)
  exprS : ∀ st, st.tokens = T → SafeR T (expressionStatementP fuel st)
  blockE : ∀ st, st.tokens = T → SafeR T (blockP fuel st)
  blockL : ∀ acc st, st.tokens = T → SafeR T (blockLoop fuel acc st)
  parseL : ∀ acc st, st.tokens = T → SafeR T (parseLoop fuel acc st)

set_option maxHeartbeats 1000000 in
open Parser in
theorem parserSafe (T : List Token) (hT : tokensOk T) : ∀ fuel, ParserSafe T fuel := by
  intro fuel
  induction fuel with
  | zero =>
    exact ⟨fun _ _ => trivial, fun _ _ => trivial, fun _ _ => trivial,
      fun _ _ _ => trivial, fun _ _ => trivial, fun _ _ _ => trivial,
      fun _ _ => trivial, fun _ _ _ => trivial, fun _ _ => trivial,
      fun _ _ _ => trivial, fun _ _ => trivial, fun _ _ _ => trivial,
      fun _ _ => trivial, fun _ _ _ => trivial, fun _ _ => trivial,
      fun _ _ => trivial, fun _ _ _ => trivial, fun _ _ _ => trivial,
      fun _ _ _ => trivial, fun _ _ => trivial, fun _ _ => trivial,
      fun _ _ => trivial, fun _ _ => trivial, fun _ _ => trivial,
      fun _ _ => trivial, fun _ _ => trivial, fun _ _ => trivial,
      fun _ _ => trivial, fun _ _ => trivial, fun _ _ _ => trivial,
      fun _ _ _ => trivial⟩
  | succ f IH =>
    have hmt : ∀ (st : PState) tts, st.tokens = T → ((matchT st tts).2).tokens = T := by
      intro st tts h
      rw [matchT_tokens]
      exact h
    have hexpr : ∀ st, st.tokens = T → SafeR T (expressionP (f + 1) st) := by
      intro st h
      exact IH.asg st h
    have horL : ∀ e st, st.tokens = T → SafeR T (orLoop (f + 1) e st) := by
      intro e st h
      simp only [orLoop]
      split
      · refine SafeR.andThen (IH.andE _ (hmt st [.kwOr] h)) ?_
        intro a st1 h1
        exact IH.orL _ st1 h1
      · exact hmt st [.kwOr] h
    have horE : ∀ st, st.tokens = T → SafeR T (orP (f + 1) st) := by
      intro st h
      simp only [orP]
      exact SafeR.andThen (IH.andE st h) (fun a st1 h1 => IH.orL a st1 h1)
    have handL : ∀ e st, st.tokens = T → SafeR T (andLoop (f + 1) e st) := by
      intro e st h
      simp only [andLoop]
      split
      · refine SafeR.andThen (IH.eq _ (hmt st [.kwAnd] h)) ?_
        intro a st1 h1
        exact IH.andL _ st1 h1
      · exact hmt st [.kwAnd] h
    have handE : ∀ st, st.tokens = T → SafeR T (andP (f + 1) st) := by
      intro st h
      simp only [andP]
      exact SafeR.andThen (IH.eq st h) (fun a st1 h1 => IH.andL a st1 h1)
    have heqL : ∀ e st, st.tokens = T → SafeR T (equalityLoop (f + 1) e st) := by
      intro e st h
      simp only [equalityLoop]
      split
      · refine SafeR.andThen (IH.cmp _ (hmt st [.bangEqual, .equalEqual] h)) ?_
        intro a st1 h1
        exact IH.eqL _ st1 h1
      · exact hmt st [.bangEqual, .equalEqual] h
    have heq : ∀ st, st.tokens = T → SafeR T (equalityP (f + 1) st) := by
      intro st h
      simp only [equalityP]
      exact SafeR.andThen (IH.cmp st h) (fun a st1 h1 => IH.eqL a st1 h1)
    have hcmpL : ∀ e st, st.tokens = T → SafeR T (comparisonLoop (f + 1) e st) := by
      intro e st h
      simp only [comparisonLoop]
      split
      · refine SafeR.andThen
          (IH.term _ (hmt st [.greater, .greaterEqual, .less, .lessEqual] h)) ?_
        intro a st1 h1
        exact IH.cmpL _ st1 h1
      · exact hmt st [.greater, .greaterEqual, .less, .lessEqual] h
    have hcmp : ∀ st, st.tokens = T → SafeR T (comparisonP (f + 1) st) := by
      intro st h
      simp only [comparisonP]
      exact SafeR.andThen (IH.term st h) (fun a st1 h1 => IH.cmpL a st1 h1)
    have htermL : ∀ e st, st.tokens = T → SafeR T (termLoop (f + 1) e st) := by
      intro e st h
      simp only [termLoop]
      split
      · refine SafeR.andThen (IH.factor _ (hmt st [.minus, .plus] h)) ?_
        intro a st1 h1
        exact IH.termL _ st1 h1
      · exact hmt st [.minus, .plus] h
    have hterm : ∀ st, st.tokens = T → SafeR T (termP (f + 1) st) := by
      intro st h
      simp only [termP]
      exact SafeR.andThen (IH.factor st h) (fun a st1 h1 => IH.termL a st1 h1)
    have hfactorL : ∀ e st, st.tokens = T → SafeR T (factorLoop (f + 1) e st) := by
      intro e st h
      simp only [factorLoop]
      split
      · refine SafeR.andThen (IH.unary _ (hmt st [.slash, .star] h)) ?_
        intro a st1 h1
        exact IH.factorL _ st1 h1
      · exact hmt st [.slash, .star] h
    have hfactor : ∀ st, st.tokens = T → SafeR T (factorP (f + 1) st) := by
      intro st h
      simp only [factorP]
      exact SafeR.andThen (IH.unary st h) (fun a st1 h1 => IH.factorL a st1 h1)
    have hunary : ∀ st, st.tokens = T → SafeR T (unaryP (f + 1) st) := by
      intro st h
      simp only [unaryP]
      split
      · refine SafeR.andThen (IH.unary _ (hmt st [.bang, .minus] h)) ?_
        intro a st1 h1
        exact h1
      · exact IH.callE _ (hmt st [.bang, .minus] h)
    have hcallL : ∀ e st, st.tokens = T → SafeR T (callLoop (f + 1) e st) := by
      intro e st h
      simp only [callLoop]
      split
      · refine SafeR.andThen (IH.finish _ _ (hmt st [.leftParen] h)) ?_
        intro a st1 h1
        exact IH.callL _ st1 h1
      · exact hmt st [.leftParen] h
    have hcallE : ∀ st, st.tokens = T → SafeR T (callP (f + 1) st) := by
      intro st h
      simp only [callP]
      exact SafeR.andThen (IH.prim st h) (fun a st1 h1 => IH.callL a st1 h1)
    have hargs : ∀ acc st, st.tokens = T → SafeR T (argsLoop (f + 1) acc st) := by
      intro acc st h
      simp only [argsLoop]
      refine SafeR.andThen (IH.expr st h) ?_
      intro a st1 h1
      split <;>
        (split
         · exact IH.args _ _ (hmt _ [.comma] (by simp [reportErrAt_tokens, h1]))
         · exact hmt _ [.comma] (by simp [reportErrAt_tokens, h1]))
    have hfinish : ∀ e st, st.tokens = T → SafeR T (finishCall (f + 1) e st) := by
      intro e st h
      simp only [finishCall]
      refine SafeR.andThen ?_ ?_
      · split
        · exact h
        · exact IH.args [] st h
      · intro a st1 h1
        refine SafeR.andThen (consumeT_safe st1 _ _ h1) ?_
        intro p st2 h2
        exact h2
    have hprim : ∀ st, st.tokens = T → SafeR T (primaryP (f + 1) st) := by
      intro st h
      simp only [primaryP]
      split
      · exact hmt st [.kwFalse] h
      · have h1 : ((matchT st [.kwFalse]).2).tokens = T := hmt _ _ h
        generalize (matchT st [.kwFalse]).2 = st1 at h1 ⊢
        split
        · exact hmt _ _ h1
        · have h2 : ((matchT st1 [.kwTrue]).2).tokens = T := hmt _ _ h1
          generalize (matchT st1 [.kwTrue]).2 = st2 at h2 ⊢
          split
          · exact hmt _ _ h2
          · have h3 : ((matchT st2 [.kwNil]).2).tokens = T := hmt _ _ h2
            generalize (matchT st2 [.kwNil]).2 = st3 at h3 ⊢
            split
            · rename_i hm4
              have hsome := primary_lit_some hT st3 h3 hm4
              split
              · exact hmt _ _ h3
              · rename_i hnone
                rw [hnone] at hsome
                cases hsome
            · have h4 : ((matchT st3 [.number, .stringLit]).2).tokens = T := hmt _ _ h3
              generalize (matchT st3 [.number, .stringLit]).2 = st4 at h4 ⊢
              split
              · exact hmt _ _ h4
              · have h5 : ((matchT st4 [.identifier]).2).tokens = T := hmt _ _ h4
                generalize (matchT st4 [.identifier]).2 = st5 at h5 ⊢
                split
                · refine SafeR.andThen (IH.expr _ (hmt _ _ h5)) ?_
                  intro e st6 h6
                  refine SafeR.andThen (consumeT_safe st6 _ _ h6) ?_
                  intro t st7 h7
                  exact h7
                · show (reportErrAt _ _ _).tokens = T
                  rw [reportErrAt_tokens]
                  exact hmt _ _ h5
    have hvarD : ∀ st, st.tokens = T → SafeR T (varDeclarationP (f + 1) st) := by
      intro st h
      simp only [varDeclarationP]
      refine SafeR.andThen (consumeT_safe st _ _ h) ?_
      intro name st1 h1
      refine SafeR.andThen ?_ ?_
      · split
        · exact SafeR.andThen (IH.expr _ (hmt _ _ h1)) (fun e st2 h2 => h2)
        · exact hmt _ _ h1
      · intro init st2 h2
        exact SafeR.andThen (consumeT_safe st2 _ _ h2) (fun t st3 h3 => h3)
    have hprintS : ∀ st, st.tokens = T → SafeR T (printStatementP (f + 1) st) := by
      intro st h
      simp only [printStatementP]
      refine SafeR.andThen (IH.expr st h) ?_
      intro v st1 h1
      exact SafeR.andThen (consumeT_safe st1 _ _ h1) (fun t st2 h2 => h2)
    have hexprS : ∀ st, st.tokens = T → SafeR T (expressionStatementP (f + 1) st) := by
      intro st h
      simp only [expressionStatementP]
      refine SafeR.andThen (IH.expr st h) ?_
      intro v st1 h1
      exact SafeR.andThen (consumeT_safe st1 _ _ h1) (fun t st2 h2 => h2)
    have hwhileS : ∀ st, st.tokens = T → SafeR T (whileStatementP (f + 1) st) := by
      intro st h
      simp only [whileStatementP]
      refine SafeR.andThen (consumeT_safe st _ _ h) ?_
      intro t st1 h1
      refine SafeR.andThen (IH.expr st1 h1) ?_
      intro cnd st2 h2
      refine SafeR.andThen (consumeT_safe st2 _ _ h2) ?_
      intro t2 st3 h3
      exact SafeR.andThen (IH.stmt st3 h3) (fun b st4 h4 => h4)
    have hifS : ∀ st, st.tokens = T → SafeR T (ifStatementP (f + 1) st) := by
      intro st h
      simp only [ifStatementP]
      refine SafeR.andThen (consumeT_safe st _ _ h) ?_
      intro t st1 h1
      refine SafeR.andThen (IH.expr st1 h1) ?_
      intro cnd st2 h2
      refine SafeR.andThen (consumeT_safe st2 _ _ h2) ?_
      intro t2 st3 h3
      refine SafeR.andThen (IH.stmt st3 h3) ?_
      intro tb st4 h4
      split
      · exact SafeR.andThen (IH.stmt _ (hmt _ _ h4)) (fun eb st5 h5 => h5)
      · exact hmt _ _ h4
    have hforS : ∀ st, st.tokens = T → SafeR T (forStatementP (f + 1) st) := by
      intro st h
      simp only [forStatementP]
      refine SafeR.andThen (consumeT_safe st _ _ h) ?_
      intro t st1 h1
      refine SafeR.andThen ?_ ?_
      · split
        · exact hmt _ _ h1
        · split
          · exact SafeR.andThen (IH.varD _ (hmt _ _ (hmt _ _ h1)))
              (fun s st2 h2 => h2)
          · exact SafeR.andThen (IH.exprS _ (hmt _ _ (hmt _ _ h1)))
              (fun s st2 h2 => h2)
      · intro initializer st2 h2
        refine SafeR.andThen ?_ ?_
        · split
          · exact SafeR.andThen (IH.expr st2 h2) (fun c st3 h3 => h3)
          · exact h2
        · intro condition st3 h3
          refine SafeR.andThen (consumeT_safe st3 _ _ h3) ?_
          intro t2 st4 h4
          refine SafeR.andThen ?_ ?_
          · split
            · exact SafeR.andThen (IH.expr st4 h4) (fun i st5 h5 => h5)
            · exact h4
          · intro increment st5 h5
            refine SafeR.andThen (consumeT_safe st5 _ _ h5) ?_
            intro t3 st6 h6
            exact SafeR.andThen (IH.stmt st6 h6) (fun b st7 h7 => h7)
    have hstmt : ∀ st, st.tokens = T → SafeR T (statementP (f + 1) st) := by
      intro st h
      simp only [statementP]
      split
      · exact IH.printS _ (hmt _ _ h)
      · have h1 : ((matchT st [.kwPrint]).2).tokens = T := hmt _ _ h
        generalize (matchT st [.kwPrint]).2 = st1 at h1 ⊢
        split
        · exact SafeR.andThen (IH.blockE _ (hmt _ _ h1)) (fun ss stx hx => hx)
        · have h2 : ((matchT st1 [.leftBrace]).2).tokens = T := hmt _ _ h1
          generalize (matchT st1 [.leftBrace]).2 = st2 at h2 ⊢
          split
          · exact IH.ifS _ (hmt _ _ h2)
          · have h3 : ((matchT st2 [.kwIf]).2).tokens = T := hmt _ _ h2
            generalize (matchT st2 [.kwIf]).2 = st3 at h3 ⊢
            split
            · exact IH.whileS _ (hmt _ _ h3)
            · have h4 : ((matchT st3 [.kwWhile]).2).tokens = T := hmt _ _ h3
              generalize (matchT st3 [.kwWhile]).2 = st4 at h4 ⊢
              split
              · exact IH.forS _ (hmt _ _ h4)
              · exact IH.exprS _ (hmt _ _ h4)
    have hasg : ∀ st, st.tokens = T → SafeR T (assignmentP (f + 1) st) := by
      intro st h
      simp only [assignmentP]
      refine SafeR.andThen (IH.orE st h) ?_
      intro e st1 h1
      split
      · refine SafeR.andThen (IH.asg _ (hmt _ _ h1)) ?_
        intro v st2 h2
        split
        · exact h2
        · show (reportErrAt _ _ _).tokens = T
          rw [reportErrAt_tokens]
          exact h2
      · exact hmt _ _ h1
    have hdecl : ∀ st, st.tokens = T → SafeR T (declarationP (f + 1) st) := by
      intro st h
      simp only [declarationP]
      have hbranch : SafeR T (if (matchT st [.kwVar]).1 = true
          then varDeclarationP f (matchT st [.kwVar]).2
          else statementP f (matchT st [.kwVar]).2) := by
        split
        · exact IH.varD _ (hmt _ _ h)
        · exact IH.stmt _ (hmt _ _ h)
      revert hbranch
      generalize (if (matchT st [.kwVar]).1 = true
          then varDeclarationP f (matchT st [.kwVar]).2
          else statementP f (matchT st [.kwVar]).2) = r
      intro hbranch
      cases r with
      | ok s st2 => exact hbranch
      | perr st2 =>
        show (synchronize st2).tokens = T
        rw [synchronize_tokens]
        exact hbranch
      | panicked => exact hbranch.elim
      | fuelOut => trivial
    have hblockL : ∀ acc st, st.tokens = T → SafeR T (blockLoop (f + 1) acc st) := by
      intro acc st h
      simp only [blockLoop]
      split
      · refine SafeR.andThen (IH.decl st h) ?_
        intro os st1 h1
        exact IH.blockL _ st1 h1
      · exact SafeR.andThen (consumeT_safe st _ _ h) (fun t st1 h1 => h1)
    have hblockE : ∀ st, st.tokens = T → SafeR T (blockP (f + 1) st) := by
      intro st h
      simp only [blockP]
      exact IH.blockL [] st h
    have hparseL : ∀ acc st, st.tokens = T → SafeR T (parseLoop (f + 1) acc st) := by
      intro acc st h
      simp only [parseLoop]
      split
      · exact h
      · refine SafeR.andThen (IH.decl st h) ?_
        intro os st1 h1
        exact IH.parseL _ st1 h1
    exact ⟨hexpr, hasg, horE, horL, handE, handL, heq, heqL, hcmp, hcmpL, hterm, htermL,
      hfactor, hfactorL, hunary, hcallE, hcallL, hfinish, hargs, hprim, hdecl, hstmt,
      hforS, hifS, hvarD, hwhileS, hprintS, hexprS, hblockE, hblockL, hparseL⟩

end LoxTree

namespace LoxTree
namespace Scanner

lemma advance_tokens (st : ScanState) : ((advance st).2).tokens = st.tokens := rfl

lemma matchToken_tokens (st : ScanState) (c : Char) :
    ((matchToken st c).2).tokens = st.tokens := by
  unfold matchToken
  split <;> rfl

lemma advanceWhile_tokens (fuel : Nat) (p : Char → Bool) :
    ∀ st : ScanState, (advanceWhile fuel p st).tokens = st.tokens := by
  induction fuel with
  | zero => intro st; rfl
  | succ f ih =>
    intro st
    unfold advanceWhile
    split
    · rw [ih]
      rfl
    · rfl

lemma stringLoop_tokens (fuel : Nat) :
    ∀ st : ScanState, (stringLoop fuel st).tokens = st.tokens := by
  induction fuel with
  | zero => intro st; rfl
  | succ f ih =>
    intro st
    unfold stringLoop
    split
    · rw [ih]
      split <;> rfl
    · rfl

lemma reportError_tokens (st : ScanState) (l : Nat) (m : String) :
    (reportError st l m).tokens = st.tokens := rfl

lemma ite_ne {c : Prop} [Decidable c] {α : Type} {a b x : α}
    (ha : ¬ a = x) (hb : ¬ b = x) : ¬ (if c then a else b) = x := by
  split
  · exact ha
  · exact hb

lemma tokensOk_ite {c : Prop} [Decidable c] {a b : ScanState}
    (ha : tokensOk a.tokens) (hb : tokensOk b.tokens) :
    tokensOk (if c then a else b).tokens := by
  split
  · exact ha
  · exact hb

lemma tokensOk_append {l : List Token} {t : Token} (hl : tokensOk l)
    (ht : (t.tokenType = .number ∨ t.tokenType = .stringLit) → t.literal.isSome = true) :
    tokensOk (l ++ [t]) := by
  intro x hx hxt
  rcases List.mem_append.1 hx with hx | hx
  · exact hl x hx hxt
  · rw [List.mem_singleton.1 hx]
    exact ht (by rw [← List.mem_singleton.1 hx]; exact hxt)

lemma tokensOk_addToken (st : ScanState) (tt : TokenType)
    (h1 : ¬ tt = TokenType.number) (h2 : ¬ tt = TokenType.stringLit)
    (h : tokensOk st.tokens) : tokensOk (addToken st tt).tokens := by
  unfold addToken addLiteralToken
  exact tokensOk_append h (by rintro (he | he) <;> [exact absurd he h1; exact absurd he h2])

lemma tokensOk_addLiteral (st : ScanState) (tt : TokenType) (v : Obj)
    (h : tokensOk st.tokens) : tokensOk (addLiteralToken st tt (some v)).tokens := by
  unfold addLiteralToken
  exact tokensOk_append h (fun _ => rfl)

lemma stringTok_tokensOk {st : ScanState} (h : tokensOk st.tokens) :
    tokensOk (stringTok st).tokens := by
  unfold stringTok
  simp only []
  split
  · show tokensOk (stringLoop _ _).tokens
    rw [stringLoop_tokens]
    exact h
  · apply tokensOk_addLiteral
    show tokensOk (stringLoop _ _).tokens
    rw [stringLoop_tokens]
    exact h

lemma numberTok_tokensOk {st : ScanState} (h : tokensOk st.tokens) :
    tokensOk (numberTok st).tokens := by
  unfold numberTok
  simp only []
  apply tokensOk_addLiteral
  split
  · rw [advanceWhile_tokens, advance_tokens, advanceWhile_tokens]
    exact h
  · rw [advanceWhile_tokens]
    exact h

lemma identifierTok_tokensOk {st : ScanState} (h : tokensOk st.tokens) :
    tokensOk (identifierTok st).tokens := by
  unfold identifierTok
  simp only []
  apply tokensOk_addToken
  · repeat first | decide | apply ite_ne
  · repeat first | decide | apply ite_ne
  · rw [advanceWhile_tokens]
    exact h

lemma scanToken_tokensOk {st : ScanState} (h : tokensOk st.tokens) :
    tokensOk (scanToken st).tokens := by
  unfold scanToken
  simp only []
  refine tokensOk_ite (tokensOk_addToken _ _ (by decide) (by decide) h) ?_
  refine tokensOk_ite (tokensOk_addToken _ _ (by decide) (by decide) h) ?_
  refine tokensOk_ite (tokensOk_addToken _ _ (by decide) (by decide) h) ?_
  refine tokensOk_ite (tokensOk_addToken _ _ (by decide) (by decide) h) ?_
  refine tokensOk_ite (tokensOk_addToken _ _ (by decide) (by decide) h) ?_
  refine tokensOk_ite (tokensOk_addToken _ _ (by decide) (by decide) h) ?_
  refine tokensOk_ite (tokensOk_addToken _ _ (by decide) (by decide) h) ?_
  refine tokensOk_ite (tokensOk_addToken _ _ (by decide) (by decide) h) ?_
  refine tokensOk_ite (tokensOk_addToken _ _ (by decide) (by decide) h) ?_
  refine tokensOk_ite (tokensOk_addToken _ _ (by decide) (by decide) h) ?_
  refine tokensOk_ite (tokensOk_ite (tokensOk_addToken _ _ (by decide) (by decide) (by rw [matchToken_tokens]; exact h)) (tokensOk_addToken _ _ (by decide) (by decide) (by rw [matchToken_tokens]; exact h))) ?_
  refine tokensOk_ite (tokensOk_ite (tokensOk_addToken _ _ (by decide) (by decide) (by rw [matchToken_tokens]; exact h)) (tokensOk_addToken _ _ (by decide) (by decide) (by rw [matchToken_tokens]; exact h))) ?_
  refine tokensOk_ite (tokensOk_ite (tokensOk_addToken _ _ (by decide) (by decide) (by rw [matchToken_tokens]; exact h)) (tokensOk_addToken _ _ (by decide) (by decide) (by rw [matchToken_tokens]; exact h))) ?_
  refine tokensOk_ite (tokensOk_ite (tokensOk_addToken _ _ (by decide) (by decide) (by rw [matchToken_tokens]; exact h)) (tokensOk_addToken _ _ (by decide) (by decide) (by rw [matchToken_tokens]; exact h))) ?_
  refine tokensOk_ite (tokensOk_ite (by rw [advanceWhile_tokens, matchToken_tokens]; exact h) (tokensOk_addToken _ _ (by decide) (by decide) (by rw [matchToken_tokens]; exact h))) ?_
  refine tokensOk_ite h ?_
  refine tokensOk_ite h ?_
  refine tokensOk_ite (stringTok_tokensOk h) ?_
  refine tokensOk_ite (numberTok_tokensOk h) ?_
  exact tokensOk_ite (identifierTok_tokensOk h) h

lemma scanLoop_tokensOk (fuel : Nat) :
    ∀ st : ScanState, tokensOk st.tokens → tokensOk (scanLoop fuel st).tokens := by
  induction fuel with
  | zero => intro st h; exact h
  | succ f ih =>
    intro st h
    unfold scanLoop
    split
    · exact ih _ (scanToken_tokensOk h)
    · exact h

/-- Every token sequence produced by the scanner satisfies the literal
payload precondition: each `Number`/`String` token carries `some` payload. -/
lemma scanTokens_tokensOk (source : List Char) : tokensOk (scanTokens source) := by
  unfold scanTokens
  simp only []
  apply tokensOk_append
  · exact scanLoop_tokensOk _ _ (by intro t ht _; cases ht)
  · rintro (he | he) <;> cases he

end Scanner
end LoxTree

namespace LoxTree

/-- **C10.** The parser's literal extraction (`primary`'s
`literal.clone().unwrap()`) is safe exactly under the implicit
precondition that every `Number`/`String` token carries a payload:
(1) every token sequence the scanner produces satisfies that precondition;
(2) on any token sequence satisfying it, `parse` never panics (for any
fuel); and (3) a `Number` token with no payload makes the extraction
panic rather than produce a parse diagnostic: the parser result is the
panic outcome, not an error outcome. -/
theorem C10_literal_unwrap_safe :
    (∀ source : List Char, tokensOk (Scanner.scanTokens source)) ∧
    (∀ (fuel : Nat) (tokens : List Token), tokensOk tokens →
      ¬ Parser.parseP fuel tokens = .panicked) ∧
    Parser.parseP 99 [⟨.number, "1", none, 1⟩, mkTok .semicolon ";", mkTok .eof ""] =
      .panicked := by
  refine ⟨Scanner.scanTokens_tokensOk, ?_, rfl⟩
  intro fuel tokens hT hpan
  have hsafe := (parserSafe tokens hT fuel).parseL [] ⟨tokens, 0, []⟩ rfl
  rw [show Parser.parseP fuel tokens = Parser.parseLoop fuel [] ⟨tokens, 0, []⟩ from rfl]
    at hpan
  rw [hpan] at hsafe
  exact hsafe

/-- Witness for C10 at a concrete input: the scanner-style token sequence
for `1 + 2;` (payloads present) parses without panicking. -/
theorem C10_literal_unwrap_safe_witness :
    ¬ Parser.parseP 60 [numTok "1" 1, mkTok .plus "+", numTok "2" 2, mkTok .semicolon ";",
      mkTok .eof ""] = .panicked :=
  C10_literal_unwrap_safe.2.1 60
    [numTok "1" 1, mkTok .plus "+", numTok "2" 2, mkTok .semicolon ";", mkTok .eof ""]
    (by decide)

end LoxTree

namespace LoxTree
namespace Parser

/-! ### C2: position-based evaluation lemmas for the parser -/

lemma peekT_of_drop (st : PState) {t : Token} {r : List Token}
    (h : st.tokens.drop st.current = t :: r) : peekT st = t :=
  Scanner.getD_of_drop _ _ _ _ _ h

lemma isAtEndT_of_drop (st : PState) {t : Token} {r : List Token}
    (h : st.tokens.drop st.current = t :: r) (ht : ¬ t.tokenType = .eof) :
    isAtEndT st = false := by
  simp [isAtEndT, peekT_of_drop _ h, ht]

lemma checkT_false_of_drop (st : PState) {t : Token} {r : List Token} {tt : TokenType}
    (h : st.tokens.drop st.current = t :: r) (hne : ¬ t.tokenType = tt) :
    checkT st tt = false := by
  unfold checkT
  split
  · rfl
  · simp [peekT_of_drop _ h, hne]

lemma checkT_true_of_drop (st : PState) {t : Token} {r : List Token} {tt : TokenType}
    (h : st.tokens.drop st.current = t :: r) (ht : t.tokenType = tt)
    (hne : ¬ tt = .eof) : checkT st tt = true := by
  have hend : isAtEndT st = false := isAtEndT_of_drop _ h (by rw [ht]; exact hne)
  simp [checkT, hend, peekT_of_drop _ h, ht]

lemma matchT_false_one {st : PState} {a : TokenType}
    (h1 : checkT st a = false) : matchT st [a] = (false, st) := by
  simp [matchT, h1]

lemma matchT_false_two {st : PState} {a b : TokenType}
    (h1 : checkT st a = false) (h2 : checkT st b = false) :
    matchT st [a, b] = (false, st) := by
  simp [matchT, h1, h2]

lemma matchT_false_four {st : PState} {a b c d : TokenType}
    (h1 : checkT st a = false) (h2 : checkT st b = false)
    (h3 : checkT st c = false) (h4 : checkT st d = false) :
    matchT st [a, b, c, d] = (false, st) := by
  simp [matchT, h1, h2, h3, h4]

lemma matchT_true_head {st : PState} {tt : TokenType} {rest : List TokenType}
    (hc : checkT st tt = true) : matchT st (tt :: rest) = (true, (advanceT st).2) := by
  unfold matchT
  rw [if_pos (by simp [hc])]

lemma advanceT_of_not_end {st : PState} (hend : isAtEndT st = false) :
    (advanceT st).2 = { st with current := st.current + 1 } := by
  simp [advanceT, hend]

lemma previousT_succ (st : PState) :
    previousT { st with current := st.current + 1 } =
      st.tokens.getD st.current defaultToken := by
  simp [previousT]

/-- Parsing one Number-literal token as a full expression when the next
token closes every precedence-climbing loop (a comma or right paren, as in
an argument list): the parser consumes exactly that token and returns its
payload as a literal. -/
lemma expressionP_numlit (f : Nat) (st : PState) (lit : Obj) (t next : Token)
    (r : List Token)
    (hdrop : st.tokens.drop st.current = t :: next :: r)
    (ht : t.tokenType = .number) (hlit : t.literal = some lit)
    (hnext : next.tokenType = .comma ∨ next.tokenType = .rightParen) :
    expressionP (f + 11) st = .ok (.literal lit) { st with current := st.current + 1 } := by
  have hend : isAtEndT st = false := isAtEndT_of_drop _ hdrop (by rw [ht]; decide)
  have hckF : ∀ tt : TokenType, ¬ TokenType.number = tt → checkT st tt = false :=
    fun tt hne => checkT_false_of_drop _ hdrop (by rw [ht]; exact hne)
  have hckN : checkT st .number = true := checkT_true_of_drop _ hdrop ht (by decide)
  have hadv : (advanceT st).2 = { st with current := st.current + 1 } :=
    advanceT_of_not_end hend
  have hdrop1 : st.tokens.drop (st.current + 1) = next :: r :=
    Scanner.drop_succ_of_drop _ _ _ _ hdrop
  have hdropS : ({ st with current := st.current + 1 } : PState).tokens.drop
      ({ st with current := st.current + 1 } : PState).current = next :: r := hdrop1
  have hckF1 : ∀ tt : TokenType, ¬ TokenType.comma = tt → ¬ TokenType.rightParen = tt →
      checkT { st with current := st.current + 1 } tt = false := by
    intro tt h1 h2
    refine checkT_false_of_drop _ hdropS ?_
    rcases hnext with hh | hh <;> rw [hh] <;> assumption
  set st1 : PState := { st with current := st.current + 1 } with hst1
  have hprev : previousT st1 = t := by
    rw [hst1, previousT_succ]
    exact Scanner.getD_of_drop _ _ _ _ _ hdrop
  -- primary
  have c1 : primaryP (f + 1) st = .ok (.literal lit) st1 := by
    have m4 : matchT st [.number, .stringLit] = (true, st1) := by
      rw [matchT_true_head hckN, hadv]
    simp [primaryP, matchT_false_one (hckF TokenType.kwFalse (by decide)),
      matchT_false_one (hckF TokenType.kwTrue (by decide)),
      matchT_false_one (hckF TokenType.kwNil (by decide)), m4, hprev, hlit]
  -- callLoop at the closing token
  have c2 : callLoop (f + 1) (Expr.literal lit) st1 = .ok (.literal lit) st1 := by
    simp [callLoop, matchT_false_one (hckF1 TokenType.leftParen (by decide) (by decide))]
  have c3 : callP (f + 2) st = .ok (.literal lit) st1 := by
    show (primaryP (f + 1) st).andThen (fun e st => callLoop (f + 1) e st) =
      .ok (.literal lit) st1
    rw [c1]
    exact c2
  have c4 : unaryP (f + 3) st = .ok (.literal lit) st1 := by
    show (if (matchT st [.bang, .minus]).1 = true then _ else
        callP (f + 2) (matchT st [.bang, .minus]).2) = .ok (.literal lit) st1
    rw [matchT_false_two (hckF TokenType.bang (by decide)) (hckF TokenType.minus (by decide))]
    simpa using c3
  have c5 : factorLoop (f + 3) (Expr.literal lit) st1 = .ok (.literal lit) st1 := by
    simp [factorLoop, matchT_false_two (hckF1 TokenType.slash (by decide) (by decide))
      (hckF1 TokenType.star (by decide) (by decide))]
  have c6 : factorP (f + 4) st = .ok (.literal lit) st1 := by
    show (unaryP (f + 3) st).andThen (fun e st => factorLoop (f + 3) e st) = _
    rw [c4]
    exact c5
  have c7 : termLoop (f + 4) (Expr.literal lit) st1 = .ok (.literal lit) st1 := by
    simp [termLoop, matchT_false_two (hckF1 TokenType.minus (by decide) (by decide))
      (hckF1 TokenType.plus (by decide) (by decide))]
  have c8 : termP (f + 5) st = .ok (.literal lit) st1 := by
    show (factorP (f + 4) st).andThen (fun e st => termLoop (f + 4) e st) = _
    rw [c6]
    exact c7
  have c9 : comparisonLoop (f + 5) (Expr.literal lit) st1 = .ok (.literal lit) st1 := by
    simp [comparisonLoop, matchT_false_four
      (hckF1 TokenType.greater (by decide) (by decide))
      (hckF1 TokenType.greaterEqual (by decide) (by decide))
      (hckF1 TokenType.less (by decide) (by decide))
      (hckF1 TokenType.lessEqual (by decide) (by decide))]
  have c10 : comparisonP (f + 6) st = .ok (.literal lit) st1 := by
    show (termP (f + 5) st).andThen (fun e st => comparisonLoop (f + 5) e st) = _
    rw [c8]
    exact c9
  have c11 : equalityLoop (f + 6) (Expr.literal lit) st1 = .ok (.literal lit) st1 := by
    simp [equalityLoop, matchT_false_two (hckF1 TokenType.bangEqual (by decide) (by decide))
      (hckF1 TokenType.equalEqual (by decide) (by decide))]
  have c12 : equalityP (f + 7) st = .ok (.literal lit) st1 := by
    show (comparisonP (f + 6) st).andThen (fun e st => equalityLoop (f + 6) e st) = _
    rw [c10]
    exact c11
  have c13 : andLoop (f + 7) (Expr.literal lit) st1 = .ok (.literal lit) st1 := by
    simp [andLoop, matchT_false_one (hckF1 TokenType.kwAnd (by decide) (by decide))]
  have c14 : andP (f + 8) st = .ok (.literal lit) st1 := by
    show (equalityP (f + 7) st).andThen (fun e st => andLoop (f + 7) e st) = _
    rw [c12]
    exact c13
  have c15 : orLoop (f + 8) (Expr.literal lit) st1 = .ok (.literal lit) st1 := by
    simp [orLoop, matchT_false_one (hckF1 TokenType.kwOr (by decide) (by decide))]
  have c16 : orP (f + 9) st = .ok (.literal lit) st1 := by
    show (andP (f + 8) st).andThen (fun e st => orLoop (f + 8) e st) = _
    rw [c14]
    exact c15
  have c17 : assignmentP (f + 10) st = .ok (.literal lit) st1 := by
    show (orP (f + 9) st).andThen _ = _
    rw [c16]
    show (if (matchT st1 [.equal]).1 = true then _ else
        PResult.ok (Expr.literal lit) (matchT st1 [.equal]).2) = _
    rw [matchT_false_one (hckF1 TokenType.equal (by decide) (by decide))]
    simp
  exact c17

end Parser
end LoxTree

namespace LoxTree

/-! ### C2: token streams for call expressions with many arguments -/

/-- A Number token `1` carrying its literal payload. -/
def oneTok : Token := numTok "1" 1

def commaTok : Token := mkTok .comma ","

def lparenTok : Token := mkTok .leftParen "("

def rparenTok : Token := mkTok .rightParen ")"

def semiTok : Token := mkTok .semicolon ";"

def eofTok : Token := mkTok .eof ""

def fTok : Token := mkTok .identifier "f"

/-- Tokens of `1, 1, ..., 1` (n arguments, comma-separated). -/
def argChain : Nat → List Token
  | 0 => []
  | 1 => [oneTok]
  | n + 2 => oneTok :: commaTok :: argChain (n + 1)

/-- Tokens of the statement `f(1, ..., 1);` with n arguments. -/
def callToks (n : Nat) : List Token :=
  fTok :: lparenTok :: (argChain n ++ [rparenTok, semiTok, eofTok])

/-- How many "Too many arguments" diagnostics the argument loop reports when
parsing `m` further arguments with `al` already accumulated: one per parsed
argument from the 255th on (finish_call tests the length after pushing). -/
def tooManyCount : Nat → Nat → Nat
  | _, 0 => 0
  | al, m + 1 => (if 255 ≤ al + 1 then 1 else 0) + tooManyCount (al + 1) m

lemma tooManyCount_succ (al m : Nat) :
    tooManyCount al (m + 1) =
      (if 255 ≤ al + 1 then 1 else 0) + tooManyCount (al + 1) m := rfl

lemma tooManyCount_closed : ∀ m al, tooManyCount al m = al + m - max al 254 := by
  intro m
  induction m with
  | zero =>
    intro al
    show 0 = al + 0 - max al 254
    omega
  | succ k ih =>
    intro al
    rw [tooManyCount_succ, ih (al + 1)]
    split <;> omega

lemma argChain_length : ∀ n : Nat, (argChain (n + 1)).length = 2 * n + 1 := by
  intro n
  induction n with
  | zero => rfl
  | succ k ih =>
    show (oneTok :: commaTok :: argChain (k + 1)).length = 2 * (k + 1) + 1
    simp only [List.length_cons, ih]
    omega

namespace Parser

/-- Running the `finish_call` argument loop over `m + 1` literal arguments:
every argument is parsed and appended, the cursor ends on the closing
paren, and one diagnostic is reported per argument past the 254th. -/
lemma argsLoop_spec :
    ∀ (m g : Nat) (acc : List Expr) (st : PState) (post : List Token),
    st.tokens.drop st.current = argChain (m + 1) ++ rparenTok :: post →
    ∃ errs : List (Token × String),
      argsLoop (g + m + 12) acc st =
        .ok (acc ++ List.replicate (m + 1) (Expr.literal (.number 1)))
          { st with current := st.current + (2 * m + 1),
                    errors := st.errors ++ errs } ∧
      errs.length = tooManyCount acc.length (m + 1) := by
  intro m
  induction m with
  | zero =>
    intro g acc st post hdrop
    have hdrop0 : st.tokens.drop st.current = oneTok :: rparenTok :: post := hdrop
    have hexp : expressionP (g + 11) st =
        .ok (.literal (.number 1)) { st with current := st.current + 1 } :=
      expressionP_numlit g st (.number 1) oneTok rparenTok post hdrop0 rfl rfl (Or.inr rfl)
    have hdrop1 : st.tokens.drop (st.current + 1) = rparenTok :: post :=
      Scanner.drop_succ_of_drop _ _ _ _ hdrop0
    have hunf : argsLoop (g + 0 + 12) acc st =
        (expressionP (g + 11) st).andThen fun arg st =>
          let args := acc ++ [arg]
          let st := if 255 ≤ args.length then
                      reportErrAt st (peekT st) "Too many arguments in function call."
                    else st
          let m := matchT st [.comma]
          if m.1 then argsLoop (g + 11) args m.2 else .ok args m.2 := rfl
    have hpeek1 : peekT { st with current := st.current + 1 } = rparenTok :=
      peekT_of_drop { st with current := st.current + 1 } hdrop1
    by_cases hcap : 255 ≤ (acc ++ [Expr.literal (Obj.number 1)]).length
    · refine ⟨[(rparenTok, "Too many arguments in function call.")], ?_, ?_⟩
      · rw [hunf, hexp]
        simp only [PResult.andThen]
        rw [if_pos hcap, hpeek1]
        simp only [reportErrAt]
        rw [matchT_false_one (checkT_false_of_drop
          { tokens := st.tokens, current := st.current + 1,
            errors := st.errors ++ [(rparenTok, "Too many arguments in function call.")] }
          hdrop1 (by decide))]
        simp
      · have hl : 255 ≤ acc.length + 1 := by simpa using hcap
        rw [tooManyCount_succ, if_pos hl]
        rfl
    · refine ⟨[], ?_, ?_⟩
      · rw [hunf, hexp]
        simp only [PResult.andThen]
        rw [if_neg hcap]
        rw [matchT_false_one (checkT_false_of_drop
          { st with current := st.current + 1 } hdrop1 (by decide))]
        simp
      · have hl : ¬ 255 ≤ acc.length + 1 := by simpa using hcap
        rw [tooManyCount_succ, if_neg hl]
        rfl
  | succ k ih =>
    intro g acc st post hdrop
    have hdrop0 : st.tokens.drop st.current =
        oneTok :: commaTok :: (argChain (k + 1) ++ rparenTok :: post) := hdrop
    have hexp : expressionP (g + k + 12) st =
        .ok (.literal (.number 1)) { st with current := st.current + 1 } := by
      rw [show g + k + 12 = g + k + 1 + 11 from by omega]
      exact expressionP_numlit (g + k + 1) st (.number 1) oneTok commaTok _ hdrop0
        rfl rfl (Or.inl rfl)
    have hdrop1 : st.tokens.drop (st.current + 1) =
        commaTok :: (argChain (k + 1) ++ rparenTok :: post) :=
      Scanner.drop_succ_of_drop _ _ _ _ hdrop0
    have hdrop2 : st.tokens.drop (st.current + 1 + 1) =
        argChain (k + 1) ++ rparenTok :: post :=
      Scanner.drop_succ_of_drop _ _ _ _ hdrop1
    have hunf : argsLoop (g + (k + 1) + 12) acc st =
        (expressionP (g + k + 12) st).andThen fun arg st =>
          let args := acc ++ [arg]
          let st := if 255 ≤ args.length then
                      reportErrAt st (peekT st) "Too many arguments in function call."
                    else st
          let m := matchT st [.comma]
          if m.1 then argsLoop (g + k + 12) args m.2 else .ok args m.2 := rfl
    have hpeek1 : peekT { st with current := st.current + 1 } = commaTok :=
      peekT_of_drop { st with current := st.current + 1 } hdrop1
    by_cases hcap : 255 ≤ (acc ++ [Expr.literal (Obj.number 1)]).length
    · obtain ⟨errs2, hrun, hlen2⟩ := ih g (acc ++ [Expr.literal (Obj.number 1)])
        { tokens := st.tokens, current := st.current + 1 + 1,
          errors := st.errors ++ [(commaTok, "Too many arguments in function call.")] }
        post hdrop2
      refine ⟨(commaTok, "Too many arguments in function call.") :: errs2, ?_, ?_⟩
      · rw [hunf, hexp]
        simp only [PResult.andThen]
        rw [if_pos hcap, hpeek1]
        simp only [reportErrAt]
        have hck : checkT
            { tokens := st.tokens, current := st.current + 1,
              errors := st.errors ++ [(commaTok, "Too many arguments in function call.")] }
            .comma = true :=
          checkT_true_of_drop
            { tokens := st.tokens, current := st.current + 1,
              errors := st.errors ++ [(commaTok, "Too many arguments in function call.")] }
            hdrop1 rfl (by decide)
        have hend2 : isAtEndT
            { tokens := st.tokens, current := st.current + 1,
              errors := st.errors ++ [(commaTok, "Too many arguments in function call.")] } = false :=
          isAtEndT_of_drop
            { tokens := st.tokens, current := st.current + 1,
              errors := st.errors ++ [(commaTok, "Too many arguments in function call.")] }
            hdrop1 (by decide)
        have hm : matchT
            { tokens := st.tokens, current := st.current + 1,
              errors := st.errors ++ [(commaTok, "Too many arguments in function call.")] }
            [.comma] =
            (true, { tokens := st.tokens, current := st.current + 1 + 1,
                     errors := st.errors ++ [(commaTok, "Too many arguments in function call.")] }) := by
          rw [matchT_true_head hck, advanceT_of_not_end hend2]
        rw [hm]
        show argsLoop (g + k + 12) (acc ++ [Expr.literal (Obj.number 1)])
          { tokens := st.tokens, current := st.current + 1 + 1,
            errors := st.errors ++ [(commaTok, "Too many arguments in function call.")] } = _
        rw [hrun]
        have hcur : st.current + 1 + 1 + (2 * k + 1) = st.current + (2 * (k + 1) + 1) := by
          omega
        simp [List.replicate_succ, hcur, List.append_assoc]
      · have hl : 255 ≤ acc.length + 1 := by simpa using hcap
        rw [tooManyCount_succ, if_pos hl]
        simp only [List.length_append, List.length_cons, List.length_nil, Nat.zero_add] at hlen2
        simp only [List.length_cons, hlen2]
        omega
    · obtain ⟨errs2, hrun, hlen2⟩ := ih g (acc ++ [Expr.literal (Obj.number 1)])
        { tokens := st.tokens, current := st.current + 1 + 1, errors := st.errors }
        post hdrop2
      refine ⟨errs2, ?_, ?_⟩
      · rw [hunf, hexp]
        simp only [PResult.andThen]
        rw [if_neg hcap]
        have hck : checkT { st with current := st.current + 1 } .comma = true :=
          checkT_true_of_drop { st with current := st.current + 1 }
            hdrop1 rfl (by decide)
        have hend2 : isAtEndT { st with current := st.current + 1 } = false :=
          isAtEndT_of_drop { st with current := st.current + 1 }
            hdrop1 (by decide)
        have hm : matchT { st with current := st.current + 1 } [.comma] =
            (true, { tokens := st.tokens, current := st.current + 1 + 1,
                     errors := st.errors }) := by
          rw [matchT_true_head hck, advanceT_of_not_end hend2]
        rw [hm]
        show argsLoop (g + k + 12) (acc ++ [Expr.literal (Obj.number 1)])
          { tokens := st.tokens, current := st.current + 1 + 1,
            errors := st.errors } = _
        rw [hrun]
        have hcur : st.current + 1 + 1 + (2 * k + 1) = st.current + (2 * (k + 1) + 1) := by
          omega
        simp [List.replicate_succ, hcur, List.append_assoc]
      · have hl : ¬ 255 ≤ acc.length + 1 := by simpa using hcap
        rw [tooManyCount_succ, if_neg hl]
        simp only [List.length_append, List.length_cons, List.length_nil, Nat.zero_add] at hlen2
        simp only [hlen2]
        omega

end Parser

end LoxTree

namespace LoxTree
namespace Parser

/-! ### C2: stepping the statement-level parser over a call expression -/

lemma previousT_of_drop {st : PState} {t : Token} {r : List Token}
    (h : st.tokens.drop (st.current - 1) = t :: r) : previousT st = t :=
  Scanner.getD_of_drop _ _ _ _ _ h

lemma advanceT_eq {st : PState} {t : Token} {r : List Token}
    (h : st.tokens.drop st.current = t :: r) (ht : ¬ t.tokenType = .eof) :
    advanceT st = (t, { st with current := st.current + 1 }) := by
  have hend : isAtEndT st = false := isAtEndT_of_drop _ h ht
  unfold advanceT
  simp only [hend]
  rw [if_neg (by simp)]
  rw [previousT_succ, Scanner.getD_of_drop _ _ _ _ _ h]

lemma consumeT_ok (st : PState) {t : Token} {r : List Token} {tt : TokenType}
    (h : st.tokens.drop st.current = t :: r) (ht : t.tokenType = tt)
    (hne : ¬ tt = .eof) (msg : String) :
    consumeT st tt msg = .ok t { st with current := st.current + 1 } := by
  unfold consumeT
  rw [checkT_true_of_drop _ h ht hne, if_pos rfl, advanceT_eq h (by rw [ht]; exact hne)]

lemma primaryP_ident (f : Nat) (st : PState) (t : Token) (r : List Token)
    (hdrop : st.tokens.drop st.current = t :: r) (ht : t.tokenType = .identifier) :
    primaryP (f + 1) st = .ok (.var t) { st with current := st.current + 1 } := by
  have hend : isAtEndT st = false := isAtEndT_of_drop _ hdrop (by rw [ht]; decide)
  have hckF : ∀ tt : TokenType, ¬ TokenType.identifier = tt → checkT st tt = false :=
    fun tt hne => checkT_false_of_drop _ hdrop (by rw [ht]; exact hne)
  have hckI : checkT st .identifier = true := checkT_true_of_drop _ hdrop ht (by decide)
  have hadv : (advanceT st).2 = { st with current := st.current + 1 } :=
    advanceT_of_not_end hend
  have hm5 : matchT st [.identifier] = (true, { st with current := st.current + 1 }) := by
    rw [matchT_true_head hckI, hadv]
  have hprev : previousT { st with current := st.current + 1 } = t := by
    rw [previousT_succ]
    exact Scanner.getD_of_drop _ _ _ _ _ hdrop
  simp [primaryP, matchT_false_one (hckF TokenType.kwFalse (by decide)),
    matchT_false_one (hckF TokenType.kwTrue (by decide)),
    matchT_false_one (hckF TokenType.kwNil (by decide)),
    matchT_false_two (hckF TokenType.number (by decide))
      (hckF TokenType.stringLit (by decide)),
    hm5, hprev]

lemma callLoop_enter (f : Nat) (e : Expr) (st : PState) (t : Token) (r : List Token)
    (hdrop : st.tokens.drop st.current = t :: r) (ht : t.tokenType = .leftParen) :
    callLoop (f + 1) e st =
      (finishCall f e { st with current := st.current + 1 }).andThen
        fun e st => callLoop f e st := by
  have hm : matchT st [.leftParen] = (true, { st with current := st.current + 1 }) := by
    rw [matchT_true_head (checkT_true_of_drop _ hdrop ht (by decide)),
      advanceT_of_not_end (isAtEndT_of_drop _ hdrop (by rw [ht]; decide))]
  simp [callLoop, hm]

lemma callLoop_exit (f : Nat) (e : Expr) (st : PState) (t : Token) (r : List Token)
    (hdrop : st.tokens.drop st.current = t :: r) (hne : ¬ t.tokenType = .leftParen) :
    callLoop (f + 1) e st = .ok e st := by
  simp [callLoop, matchT_false_one (checkT_false_of_drop _ hdrop hne)]

lemma finishCall_args (f : Nat) (e : Expr) (st : PState) (t : Token) (r : List Token)
    (hdrop : st.tokens.drop st.current = t :: r) (hne : ¬ t.tokenType = .rightParen) :
    finishCall (f + 1) e st =
      (argsLoop f [] st).andThen fun args st =>
        (consumeT st .rightParen "Expect \x27)\x27 after arguments.").andThen fun paren st =>
          .ok (.call e paren args) st := by
  simp [finishCall, checkT_false_of_drop _ hdrop hne]

lemma statementP_expr (f : Nat) (st : PState) (t : Token) (r : List Token)
    (hdrop : st.tokens.drop st.current = t :: r)
    (h1 : ¬ t.tokenType = .kwPrint) (h2 : ¬ t.tokenType = .leftBrace)
    (h3 : ¬ t.tokenType = .kwIf) (h4 : ¬ t.tokenType = .kwWhile)
    (h5 : ¬ t.tokenType = .kwFor) :
    statementP (f + 1) st = expressionStatementP f st := by
  simp [statementP, matchT_false_one (checkT_false_of_drop _ hdrop h1),
    matchT_false_one (checkT_false_of_drop _ hdrop h2),
    matchT_false_one (checkT_false_of_drop _ hdrop h3),
    matchT_false_one (checkT_false_of_drop _ hdrop h4),
    matchT_false_one (checkT_false_of_drop _ hdrop h5)]

lemma declarationP_ok (f : Nat) (st : PState) (t : Token) (r : List Token) (s : Stmt)
    (st2 : PState) (hdrop : st.tokens.drop st.current = t :: r)
    (hvar : ¬ t.tokenType = .kwVar) (hs : statementP f st = .ok s st2) :
    declarationP (f + 1) st = .ok (some s) st2 := by
  simp [declarationP, matchT_false_one (checkT_false_of_drop _ hdrop hvar), hs]

lemma expressionStatementP_ok (f : Nat) (st st2 st3 : PState) (e : Expr) (tk : Token)
    (he : expressionP f st = .ok e st2)
    (hc : consumeT st2 .semicolon "Expect \x27;\x27 after value." = .ok tk st3) :
    expressionStatementP (f + 1) st = .ok (.expression e) st3 := by
  show (expressionP f st).andThen _ = _
  rw [he]
  show (consumeT st2 .semicolon "Expect \x27;\x27 after value.").andThen _ = _
  rw [hc]
  rfl

lemma parseLoop_step (f : Nat) (acc : List Stmt) (st st2 : PState) (s : Stmt)
    (hend : isAtEndT st = false)
    (hd : declarationP f st = .ok (some s) st2) :
    parseLoop (f + 1) acc st = parseLoop f (acc ++ [s]) st2 := by
  simp [parseLoop, hend, hd]
  rfl

lemma parseLoop_done (f : Nat) (acc : List Stmt) (st : PState)
    (hend : isAtEndT st = true) :
    parseLoop (f + 1) acc st = .ok acc st := by
  simp [parseLoop, hend]

/-- If the call chain produced expression `e` stopping at a semicolon, the
whole precedence-climbing chain returns `e` unchanged. -/
lemma expressionP_of_call (f : Nat) (st : PState) (e : Expr) (stO : PState)
    (t : Token) (r : List Token)
    (hbang : checkT st .bang = false) (hminus : checkT st .minus = false)
    (hcall : callP (f + 2) st = .ok e stO)
    (hdropO : stO.tokens.drop stO.current = t :: r)
    (ht : t.tokenType = .semicolon) :
    expressionP (f + 11) st = .ok e stO := by
  have hckF1 : ∀ tt : TokenType, ¬ TokenType.semicolon = tt → checkT stO tt = false :=
    fun tt hne => checkT_false_of_drop _ hdropO (by rw [ht]; exact hne)
  have c4 : unaryP (f + 3) st = .ok e stO := by
    show (if (matchT st [.bang, .minus]).1 = true then _ else
        callP (f + 2) (matchT st [.bang, .minus]).2) = .ok e stO
    rw [matchT_false_two hbang hminus]
    simpa using hcall
  have c5 : factorLoop (f + 3) e stO = .ok e stO := by
    simp [factorLoop, matchT_false_two (hckF1 TokenType.slash (by decide))
      (hckF1 TokenType.star (by decide))]
  have c6 : factorP (f + 4) st = .ok e stO := by
    show (unaryP (f + 3) st).andThen (fun e st => factorLoop (f + 3) e st) = _
    rw [c4]
    exact c5
  have c7 : termLoop (f + 4) e stO = .ok e stO := by
    simp [termLoop, matchT_false_two (hckF1 TokenType.minus (by decide))
      (hckF1 TokenType.plus (by decide))]
  have c8 : termP (f + 5) st = .ok e stO := by
    show (factorP (f + 4) st).andThen (fun e st => termLoop (f + 4) e st) = _
    rw [c6]
    exact c7
  have c9 : comparisonLoop (f + 5) e stO = .ok e stO := by
    simp [comparisonLoop, matchT_false_four
      (hckF1 TokenType.greater (by decide))
      (hckF1 TokenType.greaterEqual (by decide))
      (hckF1 TokenType.less (by decide))
      (hckF1 TokenType.lessEqual (by decide))]
  have c10 : comparisonP (f + 6) st = .ok e stO := by
    show (termP (f + 5) st).andThen (fun e st => comparisonLoop (f + 5) e st) = _
    rw [c8]
    exact c9
  have c11 : equalityLoop (f + 6) e stO = .ok e stO := by
    simp [equalityLoop, matchT_false_two (hckF1 TokenType.bangEqual (by decide))
      (hckF1 TokenType.equalEqual (by decide))]
  have c12 : equalityP (f + 7) st = .ok e stO := by
    show (comparisonP (f + 6) st).andThen (fun e st => equalityLoop (f + 6) e st) = _
    rw [c10]
    exact c11
  have c13 : andLoop (f + 7) e stO = .ok e stO := by
    simp [andLoop, matchT_false_one (hckF1 TokenType.kwAnd (by decide))]
  have c14 : andP (f + 8) st = .ok e stO := by
    show (equalityP (f + 7) st).andThen (fun e st => andLoop (f + 7) e st) = _
    rw [c12]
    exact c13
  have c15 : orLoop (f + 8) e stO = .ok e stO := by
    simp [orLoop, matchT_false_one (hckF1 TokenType.kwOr (by decide))]
  have c16 : orP (f + 9) st = .ok e stO := by
    show (andP (f + 8) st).andThen (fun e st => orLoop (f + 8) e st) = _
    rw [c14]
    exact c15
  have c17 : assignmentP (f + 10) st = .ok e stO := by
    show (orP (f + 9) st).andThen _ = _
    rw [c16]
    show (if (matchT stO [.equal]).1 = true then _ else
        PResult.ok e (matchT stO [.equal]).2) = _
    rw [matchT_false_one (hckF1 TokenType.equal (by decide))]
    simp
  exact c17

lemma callP_comp (f : Nat) (st st2 stO : PState) (e0 e : Expr)
    (hp : primaryP (f + 1) st = .ok e0 st2)
    (hl : callLoop (f + 1) e0 st2 = .ok e stO) :
    callP (f + 2) st = .ok e stO := by
  show (primaryP (f + 1) st).andThen (fun e st => callLoop (f + 1) e st) = _
  rw [hp]
  exact hl

lemma argChain_cons : ∀ m : Nat, ∃ r : List Token, argChain (m + 1) = oneTok :: r := by
  intro m
  cases m with
  | zero => exact ⟨[], rfl⟩
  | succ k => exact ⟨commaTok :: argChain (k + 1), rfl⟩

/-- The full parse of `f(1, ..., 1);` with `m + 1` arguments: it completes
with the Call statement holding all arguments, the cursor past the
semicolon, and `(m + 1) - 254` reported diagnostics. -/
lemma parseP_callToks (m : Nat) :
    ∃ errs : List (Token × String),
      parseP (m + 41) (callToks (m + 1)) =
        .ok [Stmt.expression (Expr.call (Expr.var fTok) rparenTok
            (List.replicate (m + 1) (Expr.literal (Obj.number 1))))]
          ⟨callToks (m + 1), 2 * m + 5, errs⟩ ∧
      errs.length = m + 1 - 254 := by
  have hd0 : (callToks (m + 1)).drop 0 =
      fTok :: lparenTok :: (argChain (m + 1) ++ [rparenTok, semiTok, eofTok]) := rfl
  have hd1 : (callToks (m + 1)).drop 1 =
      lparenTok :: (argChain (m + 1) ++ [rparenTok, semiTok, eofTok]) :=
    Scanner.drop_succ_of_drop _ _ _ _ hd0
  have hd2 : (callToks (m + 1)).drop 2 =
      argChain (m + 1) ++ rparenTok :: [semiTok, eofTok] :=
    Scanner.drop_succ_of_drop _ _ _ _ hd1
  obtain ⟨rr, hrr⟩ := argChain_cons m
  have hd2c : (callToks (m + 1)).drop 2 =
      oneTok :: (rr ++ rparenTok :: [semiTok, eofTok]) := by
    rw [hd2, hrr]
    rfl
  obtain ⟨errs, hrun, hlen⟩ :=
    argsLoop_spec m 13 [] ⟨callToks (m + 1), 2, []⟩ [semiTok, eofTok] hd2
  have hrun2 : argsLoop (m + 25) [] (⟨callToks (m + 1), 2, []⟩ : PState) =
      .ok (List.replicate (m + 1) (Expr.literal (Obj.number 1)))
        (⟨callToks (m + 1), 2 * m + 3, errs⟩ : PState) := by
    rw [show m + 25 = 13 + m + 12 from by omega, hrun]
    have h2 : (2 : Nat) + (2 * m + 1) = 2 * m + 3 := by omega
    simp [h2]
  have hdC : (callToks (m + 1)).drop (2 * m + 3) = [rparenTok, semiTok, eofTok] := by
    show (fTok :: lparenTok :: (argChain (m + 1) ++ [rparenTok, semiTok, eofTok])).drop
      (2 * m + 3) = [rparenTok, semiTok, eofTok]
    rw [show 2 * m + 3 = 2 * m + 1 + 1 + 1 from by omega, List.drop_succ_cons,
      List.drop_succ_cons, ← argChain_length m]
    exact List.drop_left _ _
  have hdD : (callToks (m + 1)).drop (2 * m + 4) = [semiTok, eofTok] :=
    Scanner.drop_succ_of_drop _ _ _ _ hdC
  have hdE : (callToks (m + 1)).drop (2 * m + 5) = [eofTok] :=
    Scanner.drop_succ_of_drop _ _ _ _ hdD
  have c1 : primaryP (m + 27) (⟨callToks (m + 1), 0, []⟩ : PState) =
      .ok (.var fTok) (⟨callToks (m + 1), 1, []⟩ : PState) :=
    primaryP_ident (m + 26) ⟨callToks (m + 1), 0, []⟩ fTok _ hd0 rfl
  have c2 : callLoop (m + 27) (Expr.var fTok) (⟨callToks (m + 1), 1, []⟩ : PState) =
      (finishCall (m + 26) (Expr.var fTok)
        (⟨callToks (m + 1), 2, []⟩ : PState)).andThen
        fun e st => callLoop (m + 26) e st :=
    callLoop_enter (m + 26) (Expr.var fTok) ⟨callToks (m + 1), 1, []⟩ lparenTok _ hd1 rfl
  have c3 : finishCall (m + 26) (Expr.var fTok) (⟨callToks (m + 1), 2, []⟩ : PState) =
      (argsLoop (m + 25) [] (⟨callToks (m + 1), 2, []⟩ : PState)).andThen fun args st =>
        (consumeT st .rightParen "Expect \x27)\x27 after arguments.").andThen
          fun paren st => .ok (.call (Expr.var fTok) paren args) st :=
    finishCall_args (m + 25) (Expr.var fTok) ⟨callToks (m + 1), 2, []⟩ oneTok _ hd2c
      (by decide)
  have hconsR : consumeT (⟨callToks (m + 1), 2 * m + 3, errs⟩ : PState) .rightParen
      "Expect \x27)\x27 after arguments." =
      .ok rparenTok (⟨callToks (m + 1), 2 * m + 4, errs⟩ : PState) :=
    consumeT_ok ⟨callToks (m + 1), 2 * m + 3, errs⟩ hdC rfl (by decide) _
  have c4 : finishCall (m + 26) (Expr.var fTok) (⟨callToks (m + 1), 2, []⟩ : PState) =
      .ok (Expr.call (Expr.var fTok) rparenTok
          (List.replicate (m + 1) (Expr.literal (Obj.number 1))))
        (⟨callToks (m + 1), 2 * m + 4, errs⟩ : PState) := by
    rw [c3, hrun2]
    show (consumeT (⟨callToks (m + 1), 2 * m + 3, errs⟩ : PState) .rightParen
      "Expect \x27)\x27 after arguments.").andThen _ = _
    rw [hconsR]
    rfl
  have c5 : callLoop (m + 27) (Expr.var fTok) (⟨callToks (m + 1), 1, []⟩ : PState) =
      .ok (Expr.call (Expr.var fTok) rparenTok
          (List.replicate (m + 1) (Expr.literal (Obj.number 1))))
        (⟨callToks (m + 1), 2 * m + 4, errs⟩ : PState) := by
    rw [c2, c4]
    exact callLoop_exit (m + 25) _ ⟨callToks (m + 1), 2 * m + 4, errs⟩ semiTok _ hdD
      (by decide)
  have c6 : callP (m + 28) (⟨callToks (m + 1), 0, []⟩ : PState) =
      .ok (Expr.call (Expr.var fTok) rparenTok
          (List.replicate (m + 1) (Expr.literal (Obj.number 1))))
        (⟨callToks (m + 1), 2 * m + 4, errs⟩ : PState) :=
    callP_comp (m + 26) _ _ _ _ _ c1 c5
  have hbang : checkT (⟨callToks (m + 1), 0, []⟩ : PState) .bang = false :=
    checkT_false_of_drop ⟨callToks (m + 1), 0, []⟩ hd0 (by decide)
  have hminus : checkT (⟨callToks (m + 1), 0, []⟩ : PState) .minus = false :=
    checkT_false_of_drop ⟨callToks (m + 1), 0, []⟩ hd0 (by decide)
  have c7 : expressionP (m + 37) (⟨callToks (m + 1), 0, []⟩ : PState) =
      .ok (Expr.call (Expr.var fTok) rparenTok
          (List.replicate (m + 1) (Expr.literal (Obj.number 1))))
        (⟨callToks (m + 1), 2 * m + 4, errs⟩ : PState) :=
    expressionP_of_call (m + 26) ⟨callToks (m + 1), 0, []⟩ _
      ⟨callToks (m + 1), 2 * m + 4, errs⟩ semiTok _ hbang hminus c6 hdD rfl
  have hconsS : consumeT (⟨callToks (m + 1), 2 * m + 4, errs⟩ : PState) .semicolon
      "Expect \x27;\x27 after value." =
      .ok semiTok (⟨callToks (m + 1), 2 * m + 5, errs⟩ : PState) :=
    consumeT_ok ⟨callToks (m + 1), 2 * m + 4, errs⟩ hdD rfl (by decide) _
  have c8 : expressionStatementP (m + 38) (⟨callToks (m + 1), 0, []⟩ : PState) =
      .ok (.expression (Expr.call (Expr.var fTok) rparenTok
          (List.replicate (m + 1) (Expr.literal (Obj.number 1)))))
        (⟨callToks (m + 1), 2 * m + 5, errs⟩ : PState) :=
    expressionStatementP_ok (m + 37) _ _ _ _ _ c7 hconsS
  have c9 : statementP (m + 39) (⟨callToks (m + 1), 0, []⟩ : PState) =
      .ok (.expression (Expr.call (Expr.var fTok) rparenTok
          (List.replicate (m + 1) (Expr.literal (Obj.number 1)))))
        (⟨callToks (m + 1), 2 * m + 5, errs⟩ : PState) := by
    rw [statementP_expr (m + 38) ⟨callToks (m + 1), 0, []⟩ fTok _ hd0 (by decide)
      (by decide) (by decide) (by decide) (by decide)]
    exact c8
  have c10 : declarationP (m + 40) (⟨callToks (m + 1), 0, []⟩ : PState) =
      .ok (some (.expression (Expr.call (Expr.var fTok) rparenTok
          (List.replicate (m + 1) (Expr.literal (Obj.number 1))))))
        (⟨callToks (m + 1), 2 * m + 5, errs⟩ : PState) :=
    declarationP_ok (m + 39) ⟨callToks (m + 1), 0, []⟩ fTok _ _ _ hd0 (by decide) c9
  have hend0 : isAtEndT (⟨callToks (m + 1), 0, []⟩ : PState) = false :=
    isAtEndT_of_drop ⟨callToks (m + 1), 0, []⟩ hd0 (by decide)
  have hendE : isAtEndT (⟨callToks (m + 1), 2 * m + 5, errs⟩ : PState) = true := by
    simp [isAtEndT, peekT_of_drop ⟨callToks (m + 1), 2 * m + 5, errs⟩ hdE]
    rfl
  refine ⟨errs, ?_, ?_⟩
  · show parseLoop (m + 41) [] (⟨callToks (m + 1), 0, []⟩ : PState) = _
    have hstep : parseLoop (m + 41) [] (⟨callToks (m + 1), 0, []⟩ : PState) =
        parseLoop (m + 40)
          [Stmt.expression (Expr.call (Expr.var fTok) rparenTok
            (List.replicate (m + 1) (Expr.literal (Obj.number 1))))]
          (⟨callToks (m + 1), 2 * m + 5, errs⟩ : PState) :=
      parseLoop_step (m + 40) [] _ _ _ hend0 c10
    rw [hstep]
    exact parseLoop_done (m + 39) _ _ hendE
  · rw [hlen, tooManyCount_closed]
    simp only [List.length_nil]
    omega

end Parser
end LoxTree

namespace LoxTree

/-- C2 counterexample: a call with EXACTLY 255 arguments does report a
diagnostic.  Parsing the tokens of `f(1, ..., 1);` with 255 arguments
completes — the Call node holds all 255 arguments — but the parser state
carries one reported error, contradicting the claim that a 255-entry
argument list parses with no reported diagnostic. -/
theorem C2_counterexample_255_args :
    ∃ st : PState,
      Parser.parseP 295 (callToks 255) =
        .ok [Stmt.expression (Expr.call (Expr.var fTok) rparenTok
            (List.replicate 255 (Expr.literal (Obj.number 1))))] st ∧
      st.errors.length = 1 := by
  obtain ⟨errs, hrun, hlen⟩ := Parser.parseP_callToks 254
  exact ⟨⟨callToks 255, 513, errs⟩, hrun, hlen⟩

/-- C2 (amended): the argument cap reports from the 255th argument on,
because finish_call tests `arguments.len() >= 255` AFTER pushing the
argument just parsed.  For every n ≥ 1, parsing `f(1, ..., 1);` with n
arguments completes with a Call node holding all n arguments (the error is
non-fatal), and the number of reported diagnostics is n - 254 truncated at
zero: none when n ≤ 254, at least one as soon as n ≥ 255. -/
theorem C2_arg_cap_reports_from_255 (n : Nat) (hn : 1 ≤ n) :
    ∃ st : PState,
      Parser.parseP (n + 40) (callToks n) =
        .ok [Stmt.expression (Expr.call (Expr.var fTok) rparenTok
            (List.replicate n (Expr.literal (Obj.number 1))))] st ∧
      st.errors.length = n - 254 ∧
      (n ≤ 254 → st.errors = []) ∧
      (255 ≤ n → st.errors ≠ []) := by
  obtain ⟨m, rfl⟩ : ∃ m, n = m + 1 := ⟨n - 1, by omega⟩
  obtain ⟨errs, hrun, hlen⟩ := Parser.parseP_callToks m
  refine ⟨⟨callToks (m + 1), 2 * m + 5, errs⟩, hrun, hlen, ?_, ?_⟩
  · intro hle
    have h0 : errs.length = 0 := by omega
    exact List.eq_nil_of_length_eq_zero h0
  · intro hge hnil
    have hnil2 : errs = [] := hnil
    rw [hnil2] at hlen
    simp only [List.length_nil] at hlen
    omega

/-- C2 witness: the amended theorem applied at a 3-argument call. -/
theorem C2_arg_cap_reports_from_255_witness :
    ∃ st : PState,
      Parser.parseP 43 (callToks 3) =
        .ok [Stmt.expression (Expr.call (Expr.var fTok) rparenTok
            (List.replicate 3 (Expr.literal (Obj.number 1))))] st ∧
      st.errors.length = 3 - 254 ∧
      (3 ≤ 254 → st.errors = []) ∧
      (255 ≤ 3 → st.errors ≠ []) :=
  C2_arg_cap_reports_from_255 3 (by decide)

end LoxTree
